import Mathlib

/-!
Verification of the VeritasAI knowledge subsystem.

This file gives a shallow embedding, in Lean 4, of the JavaScript functions of
the repository that the specification's testable properties talk about:

* `lib/knowledge-store.mjs`: `toStringOrNull`, `sanitizeTags`,
  `clampConfidence`, `normalizeAspect`, `deriveResourceKey`, and the
  `KnowledgeStore` operations `replaceResource`, `mergeResource`,
  `getAspectsByResource`;
* `lib/strategies/simple-llm-utils.mjs`: `tokenize`, `scoreAspect`,
  `selectTopAspects`, `flattenAspectCollection`, `uniqueAspects`,
  `parseAspectsFromMarkdown`, `mapCitationsToResults`;
* the skill orchestrator's `normalizeOptions`, `resolveArgumentOptions`
  and `buildOptionsResolver`.

Modelling conventions:

* JavaScript values that flow through these functions are modelled by the
  inductive `JVal` (JSON-serializable values; the stores and parsers only
  ever see JSON-shaped data).  `undefined` and `null` are both `JVal.jnull`,
  which is adequate because every embedded function treats them alike
  (falsy, nullish, `== null`).
* Effects are passed explicitly: `randomUUID()` and `new Date().toISOString()`
  become explicit `String` parameters (a supply indexed by position for the
  per-aspect UUIDs), file persistence becomes explicit state passing of the
  in-memory `resources` object, and `throw` becomes `Except String`.
* JavaScript numbers are modelled by `ℚ`, with separate constructors for
  `NaN`/`±Infinity` where a function inspects them (`clampConfidence`).
* JavaScript objects are modelled either by fixed-field structures (when the
  source only ever reads fixed properties) or by association lists
  `List (String × JVal)` with first-match lookup (the sources only build
  objects with distinct keys).  Property insertion (`o.k = v` and object
  spread) keeps the position of an existing key and appends new keys, as in
  JS.
-/

/-- Model of a JSON-serializable JavaScript value.  `jnull` stands for both
`null` and `undefined` (treated identically by all embedded code). -/
inductive JVal where
  | jnull : JVal
  | jbool : Bool → JVal
  | jnum : ℚ → JVal
  | jstr : String → JVal
  | jarr : List JVal → JVal
  | jobj : List (String × JVal) → JVal
deriving Repr

/-- JavaScript truthiness for `JVal` (`NaN` does not occur in JSON data). -/
def jsTruthy : JVal → Bool
  | .jnull => false
  | .jbool b => b
  | .jnum q => q != 0
  | .jstr s => s ≠ ""
  | .jarr _ => true
  | .jobj _ => true

/-- JavaScript `a || b` on modelled values. -/
def jsOr (a b : JVal) : JVal := if jsTruthy a then a else b

/-- JavaScript `a ?? b` (nullish coalescing) on modelled values. -/
def jsNullish (a b : JVal) : JVal := match a with
  | .jnull => b
  | v => v

/-- Generic first-match association lookup (JS object / `Map` read; keys are
unique in all objects the embedded code builds, so first-match agrees with
JS). -/
def assocFind {α : Type} : List (String × α) → String → Option α
  | [], _ => none
  | (k, v) :: rest, key => if k = key then some v else assocFind rest key

/-- JS object spread `{...a, ...b}`: keys of `a` in order (taking `b`'s value
when `b` also has the key), followed by the keys only `b` has. -/
def mergeAssoc {α : Type} (a b : List (String × α)) : List (String × α) :=
  (a.map fun kv => (kv.1, (assocFind b kv.1).getD kv.2)) ++
    b.filter fun kv => (assocFind a kv.1).isNone

/-- First-match lookup of a property in a modelled object. -/
def getProp (fields : List (String × JVal)) (key : String) : Option JVal :=
  assocFind fields key

/-- `Object.prototype.hasOwnProperty.call(o, key)`. -/
def hasProp (fields : List (String × JVal)) (key : String) : Bool :=
  (getProp fields key).isSome

/-- Property read `o.key`, which is `undefined` when absent. -/
def readProp (fields : List (String × JVal)) (key : String) : JVal :=
  (getProp fields key).getD .jnull

/-- JS property assignment `o[key] = v`: overwrite in place when the key
exists, append otherwise. -/
def setProp (fields : List (String × JVal)) (key : String) (v : JVal) :
    List (String × JVal) :=
  match fields with
  | [] => [(key, v)]
  | (k, w) :: rest =>
      if k = key then (k, v) :: rest else (k, w) :: setProp rest key v

/-- Decimal digits of a natural number (JS `String` of a non-negative int). -/
def natToString (n : Nat) : String := toString n

/-- JS `String(value)` for an integer-valued number. -/
def intToString (i : Int) : String :=
  if i < 0 then "-" ++ natToString i.natAbs else natToString i.natAbs

/-- Digits of the fractional part `q ∈ [0,1)` written in decimal, with at
most `fuel` digits, dropping the trailing zero tail when the expansion
terminates.  Exact for terminating decimals, which is the only case the
repository's data can produce (JS prints doubles, and every value the claims
exercise is a terminating decimal). -/
def fracDigits : Nat → ℚ → List Char
  | 0, _ => []
  | n + 1, q =>
      if q = 0 then []
      else
        let q10 := q * 10
        let d : Int := Int.floor q10
        (Char.ofNat (48 + d.toNat)) :: fracDigits n (q10 - (d : ℚ))

/-- JS `String(value)` for a finite number, modelled exactly for integers and
terminating decimals. -/
def numToString (q : ℚ) : String :=
  if q.den = 1 then intToString q.num
  else
    let sign := if q < 0 then "-" else ""
    let a := |q|
    let ip : Nat := (Int.floor a).toNat
    let fp := a - (ip : ℚ)
    sign ++ natToString ip ++ "." ++ String.mk (fracDigits 30 fp)

mutual
/-- JS `String(value)` / `.toString()` conversion for modelled values. -/
def jsToString : JVal → String
  | .jnull => "null"
  | .jbool b => if b then "true" else "false"
  | .jnum q => numToString q
  | .jstr s => s
  | .jarr xs => String.intercalate "," (jsToStringList xs)
  | .jobj _ => "[object Object]"

/-- Array elements under `Array.prototype.toString` (`null` prints empty). -/
def jsToStringList : List JVal → List String
  | [] => []
  | .jnull :: rest => "" :: jsToStringList rest
  | v :: rest => jsToString v :: jsToStringList rest
end

/-- ASCII lowercase of a string (JS `toLowerCase` restricted to ASCII; all
data the repository manipulates at these call sites is ASCII). -/
def jsToLower (s : String) : String := String.mk (s.data.map Char.toLower)

/-- JS `String.prototype.trim` (ASCII whitespace). -/
def jsTrim (s : String) : String :=
  String.mk
    (((s.data.dropWhile Char.isWhitespace).reverse.dropWhile
      Char.isWhitespace).reverse)

/-- `s.slice(0, n)` / `String.prototype.substring` style prefix take. -/
def strTake (s : String) (n : Nat) : String := String.mk (s.data.take n)

/-- `s.slice(n)`: drop the first `n` characters. -/
def strDrop (s : String) (n : Nat) : String := String.mk (s.data.drop n)

/-- `String.prototype.startsWith`. -/
def strStartsWith (s p : String) : Bool :=
  go s.data p.data
where
  go : List Char → List Char → Bool
    | _, [] => true
    | [], _ :: _ => false
    | c :: cs, d :: ds => c = d && go cs ds

/-- `toStringOrNull` of `knowledge-store.mjs` (lines 43-52): strings are
trimmed with empty mapped to `null`; `null`/`undefined` map to `null`; any
other value is converted with `String(value)`. -/
def toStringOrNull : JVal → Option String
  | .jstr s => let t := jsTrim s; if t = "" then none else some t
  | .jnull => none
  | v => some (jsToString v)

/-- JS `x || y` on the `Option String` results of `toStringOrNull`-style
expressions, where `none` and the empty string are falsy. -/
def jsOrStr (a b : Option String) : Option String :=
  match a with
  | some s => if s = "" then b else some s
  | none => b

/-- Insertion-ordered deduplication, keeping the first occurrence of each
element — the iteration order of a JS `Set` built by repeated `add`. -/
def dedupKeepFirst (l : List String) : List String :=
  go [] l
where
  go (seen : List String) : List String → List String
    | [] => []
    | x :: rest =>
        if x ∈ seen then go seen rest else x :: go (x :: seen) rest

/-- `sanitizeTags` of `knowledge-store.mjs` (lines 54-67): non-arrays give
`[]`; otherwise each entry goes through `toStringOrNull`, falsy results are
skipped, and the lowercased labels are collected into a `Set` (first
occurrence kept). -/
def sanitizeTags : JVal → List String
  | .jarr entries =>
      dedupKeepFirst (entries.filterMap fun entry =>
        match toStringOrNull entry with
        | none => none
        | some label => if label = "" then none else some (jsToLower label))
  | _ => []

/-- A JavaScript value arriving in a `confidence` field: either not a number
at all, or `NaN`, `±Infinity`, or a finite number. -/
inductive JSNum where
  | notNum : JVal → JSNum
  | nan : JSNum
  | posInf : JSNum
  | negInf : JSNum
  | num : ℚ → JSNum
deriving Repr

/-- `Number(x.toFixed(4))` for `x ∈ [0,1]`: round to 4 decimal places, ties
away from zero (equivalently toward `+∞` for non-negative inputs, which is
all the clamp can produce). -/
def round4 (q : ℚ) : ℚ := (Int.floor (q * 10000 + 1/2) : ℚ) / 10000

/-- `clampConfidence` of `knowledge-store.mjs` (lines 69-75): non-numbers and
`NaN` give `null`; otherwise `Math.max(0, Math.min(1, value))` followed by a
finiteness check (infinities clamp to a finite bound, so the check only
re-excludes nothing) and `toFixed(4)` rounding. -/
def clampConfidence : JSNum → Option ℚ
  | .notNum _ => none
  | .nan => none
  | .posInf => some (round4 1)   -- Math.min(1, +inf) = 1, Math.max(0, 1) = 1
  | .negInf => some (round4 0)   -- Math.min(1, -inf) = -inf, Math.max(0, ·) = 0
  | .num q => some (round4 (max 0 (min 1 q)))

/-! ### SHA-256 (`node:crypto` `createHash('sha256')`)

Executable SHA-256 over byte lists, on `Nat` with explicit reduction
modulo `2^32`, so that `deriveResourceKey` is the same function the store
computes.  Constants are the standard FIPS 180-4 tables. -/

/-- 32-bit right rotation on a `Nat` below `2^32`. -/
def rotr32 (x n : Nat) : Nat :=
  (x >>> n ||| x <<< (32 - n)) % 4294967296

/-- 32-bit bitwise complement. -/
def not32 (x : Nat) : Nat := 4294967295 - x

/-- SHA-256 round constants (fractional parts of cube roots of the first 64
primes). -/
def shaK : List Nat := [1116352408, 1899447441, 3049323471, 3921009573,
  961987163, 1508970993, 2453635748, 2870763221, 3624381080, 310598401,
  607225278, 1426881987, 1925078388, 2162078206, 2614888103, 3248222580,
  3835390401, 4022224774, 264347078, 604807628, 770255983, 1249150122,
  1555081692, 1996064986, 2554220882, 2821834349, 2952996808, 3210313671,
  3336571891, 3584528711, 113926993, 338241895, 666307205, 773529912,
  1294757372, 1396182291, 1695183700, 1986661051, 2177026350, 2456956037,
  2730485921, 2820302411, 3259730800, 3345764771, 3516065817, 3600352804,
  4094571909, 275423344, 430227734, 506948616, 659060556, 883997877,
  958139571, 1322822218, 1537002063, 1747873779, 1955562222, 2024104815,
  2227730452, 2361852424, 2428436474, 2756734187, 3204031479, 3329325298]

/-- SHA-256 initial hash state (fractional parts of square roots of the first
8 primes). -/
def shaH0 : List Nat := [1779033703, 3144134277, 1013904242, 2773480762,
  1359893119, 2600822924, 528734635, 1541459225]

/-- Big-endian 32-bit words from a byte list (length a multiple of 4). -/
def bytesToWords : List Nat → List Nat
  | b0 :: b1 :: b2 :: b3 :: rest =>
      (b0 * 16777216 + b1 * 65536 + b2 * 256 + b3) :: bytesToWords rest
  | _ => []

/-- SHA-256 message padding: append `0x80`, zero bytes to 56 mod 64, then the
bit length as an 8-byte big-endian integer. -/
def shaPad (msg : List Nat) : List Nat :=
  let len := msg.length
  let zeroCount := (55 + 64 - len % 64) % 64
  let bitLen := len * 8
  msg ++ [128] ++ List.replicate zeroCount 0 ++
    [bitLen / 72057594037927936 % 256, bitLen / 281474976710656 % 256,
     bitLen / 1099511627776 % 256, bitLen / 4294967296 % 256,
     bitLen / 16777216 % 256, bitLen / 65536 % 256,
     bitLen / 256 % 256, bitLen % 256]

/-- Message-schedule extension: given the 16 block words, produce all 64
schedule words. -/
def shaSchedule (w : List Nat) (t : Nat) : List Nat :=
  match t with
  | 0 => w
  | n + 1 =>
      let w := shaSchedule w n
      let i := w.length
      let w2 := w.getD (i - 2) 0
      let w7 := w.getD (i - 7) 0
      let w15 := w.getD (i - 15) 0
      let w16 := w.getD (i - 16) 0
      let s0 := rotr32 w15 7 ^^^ rotr32 w15 18 ^^^ (w15 >>> 3)
      let s1 := rotr32 w2 17 ^^^ rotr32 w2 19 ^^^ (w2 >>> 10)
      w ++ [(s1 + w7 + s0 + w16) % 4294967296]

/-- One SHA-256 compression round over the working variables
`(a, b, c, d, e, f, g, h)`. -/
def shaRound (vars : Nat × Nat × Nat × Nat × Nat × Nat × Nat × Nat)
    (k w : Nat) : Nat × Nat × Nat × Nat × Nat × Nat × Nat × Nat :=
  let (a, b, c, d, e, f, g, h) := vars
  let S1 := rotr32 e 6 ^^^ rotr32 e 11 ^^^ rotr32 e 25
  let ch := (e &&& f) ^^^ (not32 e &&& g)
  let t1 := (h + S1 + ch + k + w) % 4294967296
  let S0 := rotr32 a 2 ^^^ rotr32 a 13 ^^^ rotr32 a 22
  let maj := (a &&& b) ^^^ (a &&& c) ^^^ (b &&& c)
  let t2 := (S0 + maj) % 4294967296
  ((t1 + t2) % 4294967296, a, b, c, (d + t1) % 4294967296, e, f, g)

/-- Compress one 64-byte block into the running hash state. -/
def shaCompress (state : List Nat) (block : List Nat) : List Nat :=
  let w := shaSchedule (bytesToWords block) 48
  let h0 := state.getD 0 0
  let h1 := state.getD 1 0
  let h2 := state.getD 2 0
  let h3 := state.getD 3 0
  let h4 := state.getD 4 0
  let h5 := state.getD 5 0
  let h6 := state.getD 6 0
  let h7 := state.getD 7 0
  let vars := (shaK.zip w).foldl (fun v (kw : Nat × Nat) => shaRound v kw.1 kw.2)
    (h0, h1, h2, h3, h4, h5, h6, h7)
  let (a, b, c, d, e, f, g, h) := vars
  [(h0 + a) % 4294967296, (h1 + b) % 4294967296, (h2 + c) % 4294967296,
   (h3 + d) % 4294967296, (h4 + e) % 4294967296, (h5 + f) % 4294967296,
   (h6 + g) % 4294967296, (h7 + h) % 4294967296]

/-- Split a padded message into 64-byte blocks (structural recursion on a
fuel bound, so the definition reduces by computation; the fuel is an upper
bound on the block count). -/
def shaBlocksFuel : Nat → List Nat → List (List Nat)
  | 0, _ => []
  | n + 1, msg =>
      if msg.length = 0 then []
      else msg.take 64 :: shaBlocksFuel n (msg.drop 64)

/-- Split a padded message into 64-byte blocks. -/
def shaBlocks (msg : List Nat) : List (List Nat) :=
  shaBlocksFuel (msg.length / 64 + 1) msg

/-- SHA-256 of a byte list, as the list of eight 32-bit state words. -/
def sha256Words (msg : List Nat) : List Nat :=
  (shaBlocks (shaPad msg)).foldl shaCompress shaH0

/-- Lowercase hexadecimal digit. -/
def hexDigit (n : Nat) : Char :=
  if n < 10 then Char.ofNat (48 + n) else Char.ofNat (87 + n)

/-- Eight lowercase hex digits of a 32-bit word. -/
def wordToHex (w : Nat) : List Char :=
  [hexDigit (w / 268435456 % 16), hexDigit (w / 16777216 % 16),
   hexDigit (w / 1048576 % 16), hexDigit (w / 65536 % 16),
   hexDigit (w / 4096 % 16), hexDigit (w / 256 % 16),
   hexDigit (w / 16 % 16), hexDigit (w % 16)]

/-- `createHash('sha256').update(bytes).digest('hex')`. -/
def sha256Hex (msg : List Nat) : String :=
  String.mk ((sha256Words msg).flatMap wordToHex)

/-- UTF-8 encoding of a string (what `hash.update(text)` hashes). -/
def utf8Bytes (s : String) : List Nat :=
  s.data.flatMap fun c =>
    let n := c.toNat
    if n < 128 then [n]
    else if n < 2048 then [192 + n / 64, 128 + n % 64]
    else if n < 65536 then [224 + n / 4096, 128 + n / 64 % 64, 128 + n % 64]
    else [240 + n / 262144, 128 + n / 4096 % 64, 128 + n / 64 % 64, 128 + n % 64]

/-! ### Knowledge store (`lib/knowledge-store.mjs`) -/

/-- `deriveResourceKey` (lines 136-143): a resource identifier that trims to
a non-empty string is the key (in trimmed form); otherwise the key is
`statement:` followed by the first 24 hex characters of the SHA-256 of the
fallback text.  The identifier is modelled as `Option String` (the callers
pass a string or `null`/`undefined`). -/
def deriveResourceKey (resourceURL : Option String) (fallbackText : String) :
    String :=
  match resourceURL with
  | some s =>
      let t := jsTrim s
      if t = "" then
        "statement:" ++ strTake (sha256Hex (utf8Bytes fallbackText)) 24
      else t
  | none => "statement:" ++ strTake (sha256Hex (utf8Bytes fallbackText)) 24

/-- An aspect after `normalizeAspect`: every field is always populated, which
is what makes the merge's object spread `{...old, ...new}` coincide with the
new record. -/
structure NormalizedAspect where
  id : String
  type : String
  title : Option String := none
  content : String
  rationale : Option String := none
  source : Option String := none
  reference : Option String := none
  tags : List String := []
  confidence : Option ℚ := none
  createdAt : String
  metadata : List (String × JVal) := []
deriving Repr

/-- The object form of a raw aspect, with each property a `JVal`
(`jnull` models an absent property). -/
structure AspectObj where
  id : JVal := .jnull
  type : JVal := .jnull
  title : JVal := .jnull
  content : JVal := .jnull
  statement : JVal := .jnull
  text : JVal := .jnull
  rationale : JVal := .jnull
  reason : JVal := .jnull
  source : JVal := .jnull
  reference : JVal := .jnull
  tags : JVal := .jnull
  confidence : JSNum := .notNum .jnull
  createdAt : JVal := .jnull
  metadata : JVal := .jnull
deriving Repr

/-- A raw aspect as accepted by the store: falsy values (including the empty
string), bare strings, other primitives (numbers, booleans — dropped by the
`typeof aspect !== 'object'` check), or objects. -/
inductive RawAspect where
  | falsy : RawAspect
  | str : String → RawAspect
  | prim : RawAspect
  | obj : AspectObj → RawAspect

/-- `normalizeAspect` (lines 77-134).  The impure inputs are explicit:
`now` is `new Date().toISOString()` and `uuid` the `randomUUID()` drawn for
this aspect.  Returns `none` where the source returns `null`. -/
def normalizeAspect (aspect : RawAspect) (resourceKey : Option String)
    (defaultType : Option String) (now : String) (uuid : String) :
    Option NormalizedAspect :=
  match aspect with
  | .falsy => none
  | .prim => none
  | .str s =>
      let trimmed := jsTrim s
      if trimmed = "" then none
      else some {
        id := "auto-" ++ uuid
        type := (jsOrStr defaultType (some "fact")).getD "fact"
        content := trimmed
        source := jsOrStr resourceKey none
        tags := []
        confidence := none
        metadata := []
        createdAt := now }
  | .obj o =>
      match toStringOrNull (jsNullish o.content (jsNullish o.statement o.text)) with
      | none => none
      | some content =>
          let rawType := (jsOrStr (toStringOrNull o.type)
            (jsOrStr defaultType (some "fact"))).getD "fact"
          let normalizedType :=
            if jsToLower rawType = "fact" ∨ jsToLower rawType = "rule" then
              jsToLower rawType
            else (jsOrStr defaultType (some "fact")).getD "fact"
          let metadata0 : List (String × JVal) :=
            match o.metadata with
            | .jobj fields => fields
            | _ => []
          let metadata :=
            if ¬ jsTruthy (readProp metadata0 "resourceKey") ∧
                (jsOrStr resourceKey none).isSome then
              setProp metadata0 "resourceKey"
                (.jstr ((jsOrStr resourceKey none).getD ""))
            else metadata0
          some {
            id := (jsOrStr (toStringOrNull o.id) (some ("auto-" ++ uuid))).getD ""
            type := normalizedType
            title := jsOrStr (toStringOrNull o.title) none
            content := content
            rationale := jsOrStr (toStringOrNull (jsOr o.rationale o.reason)) none
            source := jsOrStr (toStringOrNull o.source) (jsOrStr resourceKey none)
            reference := jsOrStr (toStringOrNull o.reference) none
            tags := sanitizeTags o.tags
            confidence := clampConfidence o.confidence
            createdAt := (jsOrStr (toStringOrNull o.createdAt) (some now)).getD ""
            metadata := metadata }

/-- A resource record as stored under a resource key. -/
structure ResourceRecord where
  resource : Option String := none
  statement : Option String := none
  savedAt : String
  aspects : List NormalizedAspect
deriving Repr

/-- The in-memory `data.resources` object: an insertion-ordered map from
resource keys to records. -/
abbrev Resources := List (String × ResourceRecord)

/-- Lookup of `data.resources[key]`. -/
def Resources.find : Resources → String → Option ResourceRecord
  | [], _ => none
  | (k, r) :: rest, key => if k = key then some r else Resources.find rest key

/-- Assignment `data.resources[key] = record` (JS object semantics: existing
key keeps its position, new key is appended). -/
def Resources.set : Resources → String → ResourceRecord → Resources
  | [], key, record => [(key, record)]
  | (k, r) :: rest, key, record =>
      if k = key then (k, record) :: rest
      else (k, r) :: Resources.set rest key record

/-- The `context` argument of the store's write operations; `statement` is
`context.statement || ''` and `defaultType` is `context.defaultType || null`,
both already collapsed to their falsy-normalized form. -/
structure StoreCtx where
  statement : String := ""
  defaultType : Option String := none

/-- Normalize a batch of incoming aspects, dropping the invalid ones;
`uuids i` is the `randomUUID()` drawn for the `i`-th batch entry (the
supply of the random effect, indexed by loop position). -/
def normalizeBatch (aspects : List RawAspect) (resourceKey : String)
    (defaultType : Option String) (now : String) (uuids : Nat → String) :
    List NormalizedAspect :=
  go 0 aspects
where
  go (i : Nat) : List RawAspect → List NormalizedAspect
    | [] => []
    | a :: rest =>
        match normalizeAspect a (some resourceKey) defaultType now (uuids i) with
        | none => go (i + 1) rest
        | some entry => entry :: go (i + 1) rest

/-- `replaceResource` (lines 177-202): normalize the batch and overwrite the
record under the derived key.  Returns the new resources map and the
normalized batch (the function's return value). -/
def replaceResource (resources : Resources) (resourceURL : Option String)
    (aspects : List RawAspect) (ctx : StoreCtx) (now : String)
    (uuids : Nat → String) : Resources × List NormalizedAspect :=
  let resourceKey := deriveResourceKey resourceURL ctx.statement
  let normalized := normalizeBatch aspects resourceKey ctx.defaultType now uuids
  let record : ResourceRecord := {
    resource := jsOrStr resourceURL none
    statement := if ctx.statement = "" then none else some ctx.statement
    savedAt := now
    aspects := normalized }
  (Resources.set resources resourceKey record, normalized)

/-- `getAspectsByResource` (lines 236-244): read-only lookup by derived key
(the source copies each aspect with `{...item}`, which is the identity in
the model). -/
def getAspectsByResource (resources : Resources) (resourceURL : Option String)
    (statement : String := "") : List NormalizedAspect :=
  match resources.find (deriveResourceKey resourceURL statement) with
  | some record => record.aspects
  | none => []

/-! ### Strategy utilities (`lib/strategies/simple-llm-utils.mjs`) -/

/-- A word character of the JS regex `\b` boundary (`\w`, i.e.
`[A-Za-z0-9_]`). -/
def isWordCharJS (c : Char) : Bool :=
  ('a' ≤ c ∧ c ≤ 'z') ∨ ('A' ≤ c ∧ c ≤ 'Z') ∨ ('0' ≤ c ∧ c ≤ '9') ∨ c = '_'

/-- A character of the token class `[0-9a-z]` (the input is lowercased before
matching). -/
def isTokenChar (c : Char) : Bool :=
  ('a' ≤ c ∧ c ≤ 'z') ∨ ('0' ≤ c ∧ c ≤ '9')

/-- Maximal runs of word characters of a character list (the stretches
between `\b` boundaries). -/
def wordRunsAux : List Char → List Char → List (List Char)
  | [], acc => if acc.isEmpty then [] else [acc.reverse]
  | c :: rest, acc =>
      if isWordCharJS c then wordRunsAux rest (c :: acc)
      else if acc.isEmpty then wordRunsAux rest []
      else acc.reverse :: wordRunsAux rest []

/-- `tokenize` (lines 76-79): lowercase, collect the matches of
`\b[0-9a-z]{3,}\b` into a `Set`.  A match of that regex is exactly a maximal
word-character run that consists only of `[0-9a-z]` and has length at least
3: the `\b` anchors force the match to span its whole word run, so a run
containing `_` (or shorter than 3) produces no token. -/
def tokenize (text : String) : List String :=
  let lower := jsToLower text
  let runs := wordRunsAux lower.data []
  dedupKeepFirst
    ((runs.filter fun r => r.length ≥ 3 ∧ r.all isTokenChar).map String.mk)

/-- `Set.prototype.add`: append when absent. -/
def addToSet (l : List String) (x : String) : List String :=
  if x ∈ l then l else l ++ [x]

/-- An aspect as consumed by the evidence-ranking and citation helpers (the
records produced by `listAllAspects`, restricted to the properties these
helpers read).  An absent/falsy `content` is modelled by `""`. -/
structure EvidenceAspect where
  id : String := ""
  type : String := ""
  content : String := ""
  tags : List JVal := []
  source : Option String := none
  resource : Option String := none
deriving Repr

/-- `scoreAspect` (lines 81-101): token overlap between the reference tokens
and the aspect's content tokens (plus its normalized string tags), with a
`+0.5` bonus for `rule`-typed aspects.  Falsy content scores `0`. -/
def scoreAspect (referenceTokens : List String) (aspect : EvidenceAspect) : ℚ :=
  if aspect.content = "" then 0
  else
    let contentTokens := aspect.tags.foldl
      (fun toks tag =>
        let normalized := match tag with
          | .jstr s => jsToLower (jsTrim s)
          | _ => ""
        if normalized = "" then toks else addToSet toks normalized)
      (tokenize aspect.content)
    let overlap := (contentTokens.filter (· ∈ referenceTokens)).length
    (overlap : ℚ) + if aspect.type = "rule" then 1/2 else 0

/-- Stable descending insertion: an element goes before the first strictly
or equally scored later element, so earlier input elements precede later
ones on ties — the behavior of the stable `Array.prototype.sort` with the
comparator `(a, b) => b.score - a.score`. -/
def insertScoredDesc (x : EvidenceAspect × ℚ) :
    List (EvidenceAspect × ℚ) → List (EvidenceAspect × ℚ)
  | [] => [x]
  | y :: ys => if x.2 ≥ y.2 then x :: y :: ys else y :: insertScoredDesc x ys

/-- Stable descending sort by score (insertion sort). -/
def sortScoredDesc : List (EvidenceAspect × ℚ) → List (EvidenceAspect × ℚ)
  | [] => []
  | x :: xs => insertScoredDesc x (sortScoredDesc xs)

/-- `selectTopAspects` (lines 346-356): score every aspect against the
statement's tokens, sort descending (stable), keep the first `max`. -/
def selectTopAspects (statement : String) (aspects : List EvidenceAspect)
    (max : Nat := 30) : List EvidenceAspect :=
  if aspects.isEmpty then []
  else
    let referenceTokens := tokenize statement
    ((sortScoredDesc
        (aspects.map fun a => (a, scoreAspect referenceTokens a))).take max).map
      (·.1)

/-- A flattened aspect entry: a JS object modelled as an association list. -/
abbrev Entry := List (String × JVal)

/-- JS `===` against a string literal. -/
def isStrVal (v : JVal) : String → Bool
  | s => match v with
    | .jstr t => t = s
    | _ => false

/-- Spread of a value into an object literal: objects contribute their
fields, arrays contribute index-keyed fields, primitives contribute
nothing (strings never reach the spreads modelled here — the sources
branch on `typeof entry === 'string'` first). -/
def objSpread : JVal → List (String × JVal)
  | .jobj fields => fields
  | .jarr xs => xs.enum.map fun (i, v) => (natToString i, v)
  | _ => []

/-- The array branch of `flattenAspectCollection` (lines 128-140): strings
become `{type, content}` entries, objects (and arrays) are kept with
`{type: entry.type || fallbackType, ...entry}`, other values are skipped.
This branch makes no recursive call. -/
def flattenArrayEntries (entries : List JVal) (fallbackType : String) :
    List Entry :=
  entries.filterMap fun entry =>
    match entry with
    | .jstr s =>
        let trimmed := jsTrim s
        if trimmed = "" then none
        else some [("type", .jstr fallbackType), ("content", .jstr trimmed)]
    | .jobj fields =>
        some (mergeAssoc
          [("type", jsOr (readProp fields "type") (.jstr fallbackType))] fields)
    | .jarr xs =>
        some (mergeAssoc
          [("type", jsOr (readProp (objSpread (.jarr xs)) "type")
            (.jstr fallbackType))] (objSpread (.jarr xs)))
    | _ => none

/-- `content || statement || text` truthiness test on an object. -/
def hasContentish (fields : List (String × JVal)) : Bool :=
  jsTruthy (jsOr (readProp fields "content")
    (jsOr (readProp fields "statement") (readProp fields "text")))

/-- `flattenAspectCollection` (lines 124-181).  The source's only recursive
call passes an array (guarded by `Array.isArray`), which immediately takes
the non-recursive array branch, so the recursion is inlined here as a call
to `flattenArrayEntries`. -/
def flattenAspectCollection (collection : JVal) (defaultType : String) :
    List Entry :=
  let fallbackType := if defaultType = "" then "fact" else defaultType
  match collection with
  | .jarr entries => flattenArrayEntries entries fallbackType
  | .jobj fields =>
      let results := fields.foldl
        (fun acc (kv : String × JVal) =>
          let key := kv.1
          let value := kv.2
          let normalizedKey := jsToLower key
          let isRuleKey := normalizedKey = "rule" ∨ normalizedKey = "rules"
          match value with
          | .jarr xs =>
              let inferredType :=
                if isRuleKey then "rule"
                else if normalizedKey = "fact" ∨ normalizedKey = "facts" then
                  "fact"
                else fallbackType
              acc ++ flattenArrayEntries xs inferredType
          | .jobj vf =>
              if hasContentish vf then
                acc ++ [mergeAssoc
                  [("type", .jstr (if isRuleKey then "rule" else fallbackType))]
                  vf]
              else acc
          | .jstr s =>
              let trimmed := jsTrim s
              if trimmed = "" then acc
              else acc ++ [[("type",
                  .jstr (if isRuleKey then "rule" else fallbackType)),
                ("title", .jstr key), ("content", .jstr trimmed)]]
          | _ => acc)
        []
      if results.isEmpty ∧ hasContentish fields then
        [mergeAssoc [("type", .jstr fallbackType)] fields]
      else results
  | .jstr s =>
      let trimmed := jsTrim s
      if trimmed = "" then []
      else [[("type", .jstr fallbackType), ("content", .jstr trimmed)]]
  | _ => []

/-- `uniqueAspects` (lines 237-260): drop entries with falsy content,
deduplicate by string id when the id is truthy, else by lowercased content.
`entry.content.toLowerCase()` is evaluated before the id test, so an entry
whose truthy content is not a string makes the whole call throw a
`TypeError` (modelled as `Except.error`). -/
def uniqueAspects (entries : List Entry) : Except String (List Entry) :=
  go [] [] entries
where
  go (byId byContent : List String) : List Entry → Except String (List Entry)
    | [] => .ok []
    | e :: rest =>
        if ¬ jsTruthy (readProp e "content") then go byId byContent rest
        else
          let id? : Option String := match readProp e "id" with
            | .jstr s => some s
            | _ => none
          match readProp e "content" with
          | .jstr c =>
              let contentKey := jsToLower c
              if id?.getD "" ≠ "" then
                if id?.getD "" ∈ byId then go byId byContent rest
                else (go (id?.getD "" :: byId) byContent rest).map (e :: ·)
              else
                if contentKey ∈ byContent then go byId byContent rest
                else (go byId (contentKey :: byContent) rest).map (e :: ·)
          | _ => .error "TypeError: entry.content.toLowerCase is not a function"

/-- `parseAspectsFromMarkdown` (lines 306-319).  The two external text
analyses are explicit parameters: `jsonBlocks` is the list of successfully
parsed fenced JSON blocks that `extractJsonBlocks` recovers from the
markdown, and `agentEntries` the entries `parseMarkdownWithAgent` would
produce from it (used only when the blocks flatten to nothing).  The final
map rewrites every surviving entry's `type` to `'rule'` exactly when it was
strictly equal to `'rule'`, and to `'fact'` otherwise. -/
def parseAspectsFromMarkdown (jsonBlocks : List JVal) (agentEntries : List Entry)
    (defaultType : String := "fact") : Except String (List Entry) :=
  let results := jsonBlocks.flatMap fun block =>
    flattenAspectCollection block defaultType
  let results := if results.isEmpty then agentEntries else results
  (uniqueAspects results).map (·.map fun e =>
    mergeAssoc e [("type",
      .jstr (if isStrVal (readProp e "type") "rule" then "rule" else "fact"))])

/-- A mapped citation result. -/
structure CiteResult where
  fact_id : String
  type : String
  content : String
  source : Option String
  explanation : JVal
  decision : JVal
deriving Repr

/-- The id-keyed lookup `mapCitationsToResults` builds over
`[...allAspects, ...contextAspects]`: first-wins insertion of every aspect
with a truthy id. -/
def citeLookup (aspects : List EvidenceAspect) :
    List (String × EvidenceAspect) :=
  aspects.foldl
    (fun m a =>
      if a.id ≠ "" ∧ (assocFind m a.id).isNone then m ++ [(a.id, a)] else m)
    []

/-- Property read on a citation-list entry, which is an arbitrary parsed
JSON value: objects yield the property (or `undefined`), other non-null
values (numbers, strings, booleans, arrays) have no such own property and
yield `undefined`; only `null`/`undefined` entries throw on member
access, which `resolvedCitationId` models. -/
def citProp (entry : JVal) (key : String) : JVal :=
  match entry with
  | .jobj fields => readProp fields key
  | _ => .jnull

/-- `entry.id || entry.fact_id || entry.rule_id` on an arbitrary
parsed-JSON citation entry: member access on a `null`/`undefined` entry
throws a `TypeError`, anything else resolves without error. -/
def resolvedCitationId (entry : JVal) : Except String JVal :=
  match entry with
  | .jnull => .error "TypeError: Cannot read properties of null"
  | .jobj fields => .ok (jsOr (readProp fields "id")
      (jsOr (readProp fields "fact_id") (readProp fields "rule_id")))
  | _ => .ok .jnull

/-- The per-citation mapper of `mapCitationsToResults`: resolve
`id || fact_id || rule_id` (throwing on a `null` entry); a falsy id, a
non-string id (which can never equal a string key under the `Map`'s
SameValueZero equality), or an id absent from the lookup gives `null`;
otherwise project the matched aspect's identity fields. -/
def mapCitation (lookup : List (String × EvidenceAspect))
    (fallbackDecision : JVal) (entry : JVal) :
    Except String (Option CiteResult) :=
  match resolvedCitationId entry with
  | .error e => .error e
  | .ok id =>
      if ¬ jsTruthy id then .ok none
      else
        match id with
        | .jstr s =>
            match assocFind lookup s with
            | none => .ok none
            | some a => .ok (some {
                fact_id := a.id
                type := a.type
                content := a.content
                source := jsOrStr a.source (jsOrStr a.resource none)
                explanation := jsOr (citProp entry "explanation")
                  (jsOr (citProp entry "reason")
                    (jsOr (citProp entry "justification") .jnull))
                decision := jsOr (citProp entry "decision") fallbackDecision })
        | _ => .ok none

/-- The `citations.map(...).filter(Boolean)` loop: entries are processed in
order, the first throwing entry aborts the whole call, and `null` mapper
results are dropped. -/
def mapCitationsGo (lookup : List (String × EvidenceAspect))
    (fallbackDecision : JVal) : List JVal → Except String (List CiteResult)
  | [] => .ok []
  | c :: rest =>
      match mapCitation lookup fallbackDecision c with
      | .error e => .error e
      | .ok none => mapCitationsGo lookup fallbackDecision rest
      | .ok (some r) =>
          (mapCitationsGo lookup fallbackDecision rest).map (r :: ·)

/-- `mapCitationsToResults` (lines 390-420): keep exactly the citations
that resolve to a known aspect id.  The citation list holds arbitrary
parsed JSON values (`parseCitationsFromMarkdown` returns raw parsed
arrays), so a `null` entry makes the call throw. -/
def mapCitationsToResults (citations : List JVal)
    (contextAspects allAspects : List EvidenceAspect)
    (fallbackDecision : JVal) : Except String (List CiteResult) :=
  if citations.isEmpty then .ok []
  else
    mapCitationsGo (citeLookup (allAspects ++ contextAspects))
      fallbackDecision citations

/-! ### Option resolution (skill orchestrator) -/

/-- A normalized option pair `{value, label}`. -/
structure OptPair where
  value : JVal
  label : JVal
deriving Repr

/-- `normalizeOptions` (identical in the orchestrator and the shared helper
module): non-arrays give `[]`; `null`/`undefined` entries are skipped;
string entries become `{value: entry, label: entry}`; object entries (arrays
included — `typeof` is `'object'`) take `entry.value` when the own property
exists (skipping the entry when that value is `null`/`undefined`) and the
entry itself otherwise, with the label the own `label` property when present
and `String(value)` otherwise; remaining primitives keep the entry as value
with label `String(entry)`. -/
def normalizeOptions : JVal → List OptPair
  | .jarr entries =>
      entries.filterMap fun entry =>
        match entry with
        | .jnull => none
        | .jstr s => some { value := .jstr s, label := .jstr s }
        | .jobj fields =>
            let value : JVal :=
              if hasProp fields "value" then readProp fields "value"
              else .jobj fields
            match value with
            | .jnull => none
            | v =>
                let label : JVal :=
                  if hasProp fields "label" then readProp fields "label"
                  else .jstr (jsToString v)
                some { value := v, label := label }
        | .jarr xs =>
            some { value := .jarr xs, label := .jstr (jsToString (.jarr xs)) }
        | v => some { value := v, label := .jstr (jsToString v) }
  | _ => []

/-- An argument definition as read by the option resolvers: the declared
`type` when it is a string, and — at the registration layer — the outcome of
the argument's function-valued `enumerator`, when one is declared (the model
of invoking the closure: either a thrown error or a returned value). -/
structure ArgDef where
  type : Option String := none
  enumerator : Option (Except String JVal) := none

/-- A provider function: invoked with `{argument, spec}`, it either throws
or returns the raw option collection. -/
abbrev ProviderFn := String → ArgDef → Except String JVal

/-- The body of `resolveArgumentOptions`' loop over `Object.entries(args)`:
a `%`-prefixed declared type demands a provider (a missing one throws the
error naming provider and argument), any other type yields an empty option
list. -/
def resolveArgsList (args : List (String × ArgDef))
    (providers : List (String × ProviderFn)) :
    Except String (List (String × List OptPair)) :=
  match args with
  | [] => .ok []
  | (argumentName, argumentSpec) :: rest =>
      -- `typeName` is `argumentSpec.type.getD ""` and `providerName` its
      -- tail after the `%` marker (`typeName.slice(1)`), inlined here.
      if strStartsWith (argumentSpec.type.getD "") "%" then
        match assocFind providers (strDrop (argumentSpec.type.getD "") 1) with
        | none => .error ("Missing options provider '" ++
            strDrop (argumentSpec.type.getD "") 1 ++
            "' for argument '" ++ argumentName ++ "'.")
        | some provider =>
            match provider argumentName argumentSpec with
            | .error e => .error e
            | .ok rawOptions =>
                (resolveArgsList rest providers).map
                  ((argumentName, normalizeOptions rawOptions) :: ·)
      else
        (resolveArgsList rest providers).map ((argumentName, []) :: ·)

/-- `resolveArgumentOptions` of the shared helper module (lines 30-53):
`none` models a spec without an object-valued `arguments` map. -/
def resolveArgumentOptions (args : Option (List (String × ArgDef)))
    (providers : List (String × ProviderFn)) :
    Except String (List (String × List OptPair)) :=
  match args with
  | none => .ok []
  | some argList => resolveArgsList argList providers

/-- A skill specification as consumed by `buildOptionsResolver`: the `name`
property (when a string) and the `arguments` map (when an object). -/
structure SpecDef where
  name : Option String := none
  arguments : Option (List (String × ArgDef)) := none

/-- A skill module as consumed by `buildOptionsResolver`: whether a `specs`
factory exists (and the specification it returns), and the module's
function-valued properties by name (the candidate option providers). -/
structure SkillModule where
  specs : Option SpecDef := none
  moduleProviders : List (String × ProviderFn) := []

/-- The first loop of `buildOptionsResolver` (orchestrator lines 243-277):
arguments with a function-valued `enumerator` are resolved immediately (a
throwing enumerator is caught and replaced by an empty list) and skip the
provider check; `%`-typed arguments require the provider on the skill
module (throwing a skill-naming error when absent) and collect it; other
arguments contribute nothing here. -/
def buildFirstPass (m : SkillModule) (skillName : String) :
    List (String × ArgDef) →
    Except String (List (String × List OptPair) × List (String × ProviderFn))
  | [] => .ok ([], [])
  | (argumentName, definition) :: rest =>
      match definition.enumerator with
      | some outcome =>
          -- a throwing enumerator is caught and logged, and an empty option
          -- list substituted
          (buildFirstPass m skillName rest).map fun rp =>
            ((argumentName,
              match outcome with
              | .error _ => []
              | .ok raw => normalizeOptions raw) :: rp.1, rp.2)
      | none =>
          if strStartsWith (definition.type.getD "") "%" then
            match assocFind m.moduleProviders
                (strDrop (definition.type.getD "") 1) with
            | none => .error ("Skill '" ++ skillName ++
                "' is missing options provider '" ++
                strDrop (definition.type.getD "") 1 ++
                "' for argument '" ++ argumentName ++ "'.")
            | some f =>
                (buildFirstPass m skillName rest).map fun rp =>
                  (rp.1, (strDrop (definition.type.getD "") 1, f) :: rp.2)
          else buildFirstPass m skillName rest

/-- `buildOptionsResolver` (orchestrator lines 236-283), modelling one
invocation of the resolver closure it returns: run the first loop, then
`resolveArgumentOptions` over the collected providers, and merge as
`{...result, ...providerOptions}`.  A module without a `specs` factory (or a
spec without an `arguments` object) resolves to the empty map. -/
def buildOptionsResolver (m : SkillModule) :
    Except String (List (String × List OptPair)) :=
  match m.specs with
  | none => .ok []
  | some spec =>
      match spec.arguments with
      | none => .ok []
      | some argList =>
          match buildFirstPass m
              ((jsOrStr spec.name (some "unknown")).getD "unknown") argList with
          | .error e => .error e
          | .ok (result, providers) =>
              match resolveArgumentOptions spec.arguments providers with
              | .error e => .error e
              | .ok providerOptions => .ok (mergeAssoc result providerOptions)

/-! ### Concrete data for the claims' scenarios and witnesses -/

/-- The raw aspect `{id:'f1', type:'fact', content:'Backups run every 4
hours'}` of the end-to-end scenario. -/
def f1Raw : RawAspect :=
  .obj { id := .jstr "f1", type := .jstr "fact",
         content := .jstr "Backups run every 4 hours" }

/-- The raw aspect `{id:'f2', type:'rule', content:'RPO <= 4h'}` of the
end-to-end scenario. -/
def f2Raw : RawAspect :=
  .obj { id := .jstr "f2", type := .jstr "rule", content := .jstr "RPO <= 4h" }

/-- The rule aspect of the evidence-ranking scenario. -/
def r1Aspect : EvidenceAspect :=
  { id := "r1", type := "rule", content := "quarterly access review" }

/-- The fact aspect of the evidence-ranking scenario. -/
def f1Aspect : EvidenceAspect :=
  { id := "f1", type := "fact", content := "quarterly access review performed" }

/-- The raw token overlap of `scoreAspect` (the size of the intersection of
the aspect's token set with the reference tokens), before the rule bonus. -/
def rawOverlap (referenceTokens : List String) (aspect : EvidenceAspect) : Nat :=
  ((aspect.tags.foldl
      (fun toks tag =>
        let normalized := match tag with
          | .jstr s => jsToLower (jsTrim s)
          | _ => ""
        if normalized = "" then toks else addToSet toks normalized)
      (tokenize aspect.content)).filter (· ∈ referenceTokens)).length

/-- A skill module whose single argument `a` declares both a throwing
function-valued `enumerator` and the provider type `%foo`, with the provider
`foo` present on the module. -/
def mixedEnumeratorModule : SkillModule where
  specs := some
    { name := some "s",
      arguments := some
        [("a", { type := some "%foo", enumerator := some (.error "boom") })] }
  moduleProviders := [("foo", fun _ _ => .ok (.jarr []))]

/-- A well-formed skill module: argument `a` has a throwing enumerator (and
no `%` type), argument `b` a `%foo` type with the provider present. -/
def throwingEnumeratorModule : SkillModule where
  specs := some
    { name := some "s",
      arguments := some
        [("a", { enumerator := some (.error "boom") }),
         ("b", { type := some "%foo" })] }
  moduleProviders := [("foo", fun _ _ => .ok (.jarr [.jstr "x"]))]

/-- A skill module whose single argument `x` declares the provider type
`%p` while the module has no function-valued properties at all. -/
def missingProviderModule : SkillModule where
  specs := some { name := none, arguments := some [("x", { type := some "%p" })] }
  moduleProviders := []

/-- A skill module whose single argument `x` declares both a (well-behaved)
function-valued `enumerator` and the provider type `%p`, while the module
has no function-valued properties at all. -/
def mixedMissingProviderModule : SkillModule where
  specs := some
    { name := some "s",
      arguments := some
        [("x", { type := some "%p", enumerator := some (.ok (.jarr [])) })] }
  moduleProviders := []

/-- Compatibility check of the SHA-256 embedding against the standard
test vector for the empty message. -/
theorem sha256Hex_empty_vector :
    sha256Hex (utf8Bytes "") =
      "e3b0c44298fc1c149afbf4c8996fb92427ae41e4649b934ca495991b7852b855" := by
  rfl

/-- C9: normalizing an aspect's confidence yields `1` for `1.7`, `0` for
`-0.2`, `null` for every non-number (such as `"abc"`) and for `NaN`, and for
every finite number a value in `[0,1]` that is an integer multiple of
`1/10000` within half of that step of the clamped input (the `toFixed(4)`
rounding of `Math.max(0, Math.min(1, value))`). -/
theorem clampConfidence_C9 :
    clampConfidence (.num (17/10)) = some 1 ∧
    clampConfidence (.num (-(1/5))) = some 0 ∧
    clampConfidence (.notNum (.jstr "abc")) = none ∧
    (∀ v : JVal, clampConfidence (.notNum v) = none) ∧
    clampConfidence .nan = none ∧
    (∀ q : ℚ, ∃ n : ℤ, clampConfidence (.num q) = some ((n : ℚ) / 10000) ∧
      0 ≤ n ∧ n ≤ 10000 ∧
      |(n : ℚ) / 10000 - max 0 (min 1 q)| ≤ 1 / 20000) := by
  refine ⟨?_, ?_, rfl, fun v => rfl, rfl, fun q => ?_⟩
  · show some (round4 (max 0 (min 1 (17/10)))) = some 1
    norm_num [round4, min_def, max_def]
  · show some (round4 (max 0 (min 1 (-(1/5))))) = some 0
    norm_num [round4, min_def, max_def]
  set c : ℚ := max 0 (min 1 q) with hc
  have hc0 : 0 ≤ c := le_max_left 0 _
  have hc1 : c ≤ 1 := max_le (by norm_num) (min_le_left 1 q)
  refine ⟨⌊c * 10000 + 1/2⌋, ?_, ?_, ?_, ?_⟩
  · simp [clampConfidence, round4, hc]
  · rw [Int.le_floor]
    push_cast
    nlinarith
  · have h1 : (⌊c * 10000 + 1/2⌋ : ℚ) ≤ c * 10000 + 1/2 := Int.floor_le _
    have h2 : (⌊c * 10000 + 1/2⌋ : ℚ) < 10001 := by nlinarith
    have h3 : ⌊c * 10000 + 1/2⌋ < 10001 := by exact_mod_cast h2
    omega
  · have h1 : (⌊c * 10000 + 1/2⌋ : ℚ) ≤ c * 10000 + 1/2 := Int.floor_le _
    have h2 : c * 10000 + 1/2 < (⌊c * 10000 + 1/2⌋ : ℚ) + 1 :=
      Int.lt_floor_add_one _
    rw [abs_sub_le_iff]
    constructor <;> nlinarith

/-- C5: `normalizeOptions` maps the documented example to exactly the three
expected pairs (the `null` entry dropped, the missing label derived with
`String(value)`), and in general a string entry becomes `{value, label}`
with both the entry, a `null` entry is skipped, and an object entry with a
non-null own `value` keeps an explicit `label` when present and otherwise
derives it as `String(value)`. -/
theorem normalizeOptions_C5 :
    normalizeOptions (.jarr [.jstr "x",
        .jobj [("value", .jnum 1), ("label", .jstr "one")], .jnull,
        .jobj [("value", .jnum 0)]]) =
      [{ value := .jstr "x", label := .jstr "x" },
       { value := .jnum 1, label := .jstr "one" },
       { value := .jnum 0, label := .jstr "0" }] ∧
    (∀ rest s, normalizeOptions (.jarr (.jstr s :: rest)) =
      { value := .jstr s, label := .jstr s } :: normalizeOptions (.jarr rest)) ∧
    (∀ rest, normalizeOptions (.jarr (.jnull :: rest)) =
      normalizeOptions (.jarr rest)) ∧
    (∀ rest fields v l, getProp fields "value" = some v → v ≠ .jnull →
      getProp fields "label" = some l →
      normalizeOptions (.jarr (.jobj fields :: rest)) =
        { value := v, label := l } :: normalizeOptions (.jarr rest)) ∧
    (∀ rest fields v, getProp fields "value" = some v → v ≠ .jnull →
      getProp fields "label" = none →
      normalizeOptions (.jarr (.jobj fields :: rest)) =
        { value := v, label := .jstr (jsToString v) } ::
          normalizeOptions (.jarr rest)) := by
  refine ⟨by rfl, fun rest s => rfl, fun rest => rfl, ?_, ?_⟩
  · intro rest fields v l hv hvn hl
    cases v <;>
      simp_all [normalizeOptions, List.filterMap_cons, hasProp, readProp]
  · intro rest fields v hv hvn hl
    cases v <;>
      simp_all [normalizeOptions, List.filterMap_cons, hasProp, readProp]

/-- Witness for `normalizeOptions_C5` at concrete object entries. -/
theorem normalizeOptions_C5_witness :
    normalizeOptions (.jarr [.jobj [("value", .jnum 1), ("label", .jstr "one")]]) =
      [{ value := .jnum 1, label := .jstr "one" }] ∧
    normalizeOptions (.jarr [.jobj [("value", .jnum 0)]]) =
      [{ value := .jnum 0, label := .jstr "0" }] := by
  constructor
  · have h := normalizeOptions_C5.2.2.2.1 []
      [("value", .jnum 1), ("label", .jstr "one")] (.jnum 1) (.jstr "one")
      (by rfl) (by simp) (by rfl)
    simpa using h
  · have h := normalizeOptions_C5.2.2.2.2 [] [("value", .jnum 0)] (.jnum 0)
      (by rfl) (by simp) (by rfl)
    simpa using h

/-- C4: for the two scenario aspects and the query
`"quarterly access review"`, the raw token overlaps are equal (both 3),
`scoreAspect` gives the rule-typed `r1` exactly the `+0.5` bonus over its
overlap while the fact-typed `f1` gets none, `selectTopAspects` therefore
ranks `r1` first, and in general two equally scored aspects keep their
original order (the sort is stable). -/
theorem selectTopAspects_C4 :
    rawOverlap (tokenize "quarterly access review") r1Aspect =
      rawOverlap (tokenize "quarterly access review") f1Aspect ∧
    scoreAspect (tokenize "quarterly access review") r1Aspect =
      (rawOverlap (tokenize "quarterly access review") r1Aspect : ℚ) + 1/2 ∧
    scoreAspect (tokenize "quarterly access review") f1Aspect =
      (rawOverlap (tokenize "quarterly access review") f1Aspect : ℚ) ∧
    selectTopAspects "quarterly access review" [r1Aspect, f1Aspect] =
      [r1Aspect, f1Aspect] ∧
    (∀ s x y, scoreAspect (tokenize s) x = scoreAspect (tokenize s) y →
      selectTopAspects s [x, y] = [x, y]) := by
  have h2 : scoreAspect (tokenize "quarterly access review") r1Aspect =
      (rawOverlap (tokenize "quarterly access review") r1Aspect : ℚ) + 1/2 := by
    simp [scoreAspect, rawOverlap, r1Aspect]
  have h3 : rawOverlap (tokenize "quarterly access review") r1Aspect = 3 := by
    decide
  have h4 : scoreAspect (tokenize "quarterly access review") f1Aspect =
      (rawOverlap (tokenize "quarterly access review") f1Aspect : ℚ) := by
    simp [scoreAspect, rawOverlap, f1Aspect]
  have h5 : rawOverlap (tokenize "quarterly access review") f1Aspect = 3 := by
    decide
  refine ⟨by decide, h2, h4, ?_, ?_⟩
  · have hr : scoreAspect (tokenize "quarterly access review") r1Aspect =
        7/2 := by rw [h2, h3]; norm_num
    have hf : scoreAspect (tokenize "quarterly access review") f1Aspect =
        3 := by rw [h4, h5]; norm_num
    norm_num [selectTopAspects, sortScoredDesc, insertScoredDesc, hr, hf]
  · intro s x y h
    simp [selectTopAspects, sortScoredDesc, insertScoredDesc, h]

/-- Witness for `selectTopAspects_C4`: the stability clause applied to two
concrete aspects with equal scores. -/
theorem selectTopAspects_C4_witness :
    scoreAspect (tokenize "alpha beta")
        { id := "x", type := "fact", content := "alpha" } =
      scoreAspect (tokenize "alpha beta")
        { id := "y", type := "fact", content := "beta" } ∧
    selectTopAspects "alpha beta"
      [{ id := "x", type := "fact", content := "alpha" },
       { id := "y", type := "fact", content := "beta" }] =
      [{ id := "x", type := "fact", content := "alpha" },
       { id := "y", type := "fact", content := "beta" }] := by
  have h : scoreAspect (tokenize "alpha beta")
        { id := "x", type := "fact", content := "alpha" } =
      scoreAspect (tokenize "alpha beta")
        { id := "y", type := "fact", content := "beta" } := by
    have hx : scoreAspect (tokenize "alpha beta")
        { id := "x", type := "fact", content := "alpha" } =
        (rawOverlap (tokenize "alpha beta")
          { id := "x", type := "fact", content := "alpha" } : ℚ) := by
      simp [scoreAspect, rawOverlap]
    have hy : scoreAspect (tokenize "alpha beta")
        { id := "y", type := "fact", content := "beta" } =
        (rawOverlap (tokenize "alpha beta")
          { id := "y", type := "fact", content := "beta" } : ℚ) := by
      simp [scoreAspect, rawOverlap]
    rw [hx, hy]
    norm_num
    decide
  exact ⟨h, selectTopAspects_C4.2.2.2.2 "alpha beta" _ _ h⟩

/-- C3 counterexample: in the end-to-end scenario the single stored aspect's
`source` is the resource key `'doc1'`, not `null` as the claim states —
`normalizeAspect` computes `source = toStringOrNull(aspect.source) ||
resourceKey || null`, and the resource key is truthy here. -/
theorem replaceResource_C3_counterexample :
    (getAspectsByResource
        (replaceResource [] (some "doc1") [f1Raw] {} "2024-01-01T00:00:00.000Z"
          (fun i => "uuid-" ++ natToString i)).1 (some "doc1")).map
      (fun a => (a.id, a.type, a.source)) =
      [("f1", "fact", some "doc1")] ∧
    some "doc1" ≠ (none : Option String) := by
  exact ⟨rfl, by simp⟩

/-- C3 (amended): on an empty store, after
`replaceResource('doc1', [f1], {})` the lookup returns exactly one aspect
with id `f1`, type `fact`, and `source = 'doc1'` (the resource key — not
`null`); a second `replaceResource('doc1', [f2], {})` replaces the contents
entirely, leaving only `f2` and no aspect with id `f1`. -/
theorem replaceResource_C3_amended (now1 now2 : String) (u1 u2 : Nat → String) :
    (getAspectsByResource
        (replaceResource [] (some "doc1") [f1Raw] {} now1 u1).1
        (some "doc1")).map (fun a => (a.id, a.type, a.source)) =
      [("f1", "fact", some "doc1")] ∧
    (getAspectsByResource
        (replaceResource (replaceResource [] (some "doc1") [f1Raw] {} now1 u1).1
          (some "doc1") [f2Raw] {} now2 u2).1
        (some "doc1")).map (fun a => (a.id, a.type)) =
      [("f2", "rule")] ∧
    ((getAspectsByResource
        (replaceResource (replaceResource [] (some "doc1") [f1Raw] {} now1 u1).1
          (some "doc1") [f2Raw] {} now2 u2).1
        (some "doc1")).all fun a => a.id != "f1") = true := by
  exact ⟨rfl, rfl, rfl⟩

/-- C2 counterexample: for an identifier with surrounding whitespace the
derived key is the trimmed identifier, not that identifier itself
(`toStringOrNull` trims), falsifying the claim's "returns that identifier"
reading of the exact-identifier rule. -/
theorem deriveResourceKey_C2_counterexample :
    deriveResourceKey (some " doc1 ") "" = "doc1" ∧ "doc1" ≠ " doc1 " := by
  exact ⟨rfl, by decide⟩

/-- C2 (amended): `deriveResourceKey` is a pure function that returns the
trimmed identifier whenever the identifier trims to a non-empty string;
for an absent identifier it returns `'statement:'` followed by the first 24
hex characters of the SHA-256 of the statement text; and two statement
texts whose 24-character hash prefixes differ give different keys. -/
theorem deriveResourceKey_C2_amended :
    (∀ s fb, jsTrim s ≠ "" → deriveResourceKey (some s) fb = jsTrim s) ∧
    (∀ fb, deriveResourceKey none fb =
      "statement:" ++ strTake (sha256Hex (utf8Bytes fb)) 24) ∧
    (∀ t1 t2, strTake (sha256Hex (utf8Bytes t1)) 24 ≠
        strTake (sha256Hex (utf8Bytes t2)) 24 →
      deriveResourceKey none t1 ≠ deriveResourceKey none t2) := by
  refine ⟨?_, fun fb => rfl, ?_⟩
  · intro s fb h
    simp [deriveResourceKey, h]
  · intro t1 t2 h hEq
    apply h
    have hdata := congrArg String.data hEq
    simp only [deriveResourceKey, String.data_append] at hdata
    have := List.append_cancel_left hdata
    exact String.ext this

/-- Witness for `deriveResourceKey_C2_amended` at a concrete identifier and
two concrete statements with distinct hash prefixes. -/
theorem deriveResourceKey_C2_witness :
    jsTrim "doc1" ≠ "" ∧ deriveResourceKey (some "doc1") "" = "doc1" ∧
    strTake (sha256Hex (utf8Bytes "a")) 24 ≠
      strTake (sha256Hex (utf8Bytes "b")) 24 ∧
    deriveResourceKey none "a" ≠ deriveResourceKey none "b" := by
  refine ⟨by decide, ?_, by decide, ?_⟩
  · exact deriveResourceKey_C2_amended.1 "doc1" "" (by decide)
  · exact deriveResourceKey_C2_amended.2.2 "a" "b" (by decide)

/-- Association lookup distributes over append, searching the left list
first. -/
theorem assocFind_append {α : Type} (a b : List (String × α)) (k : String) :
    assocFind (a ++ b) k =
      match assocFind a k with
      | some v => some v
      | none => assocFind b k := by
  induction a with
  | nil => simp [assocFind]
  | cons x rest ih =>
      obtain ⟨kx, vx⟩ := x
      by_cases h : kx = k <;> simp [assocFind, h, ih]

/-- Association lookup after a key-preserving value map. -/
theorem assocFind_mapValues {α β : Type} (g : String → α → β)
    (a : List (String × α)) (k : String) :
    assocFind (a.map fun kv => (kv.1, g kv.1 kv.2)) k =
      (assocFind a k).map (g k) := by
  induction a with
  | nil => simp [assocFind]
  | cons x rest ih =>
      obtain ⟨kx, vx⟩ := x
      by_cases h : kx = k <;> simp [assocFind, h, ih]

/-- Filtering out entries of other keys does not change a lookup, provided
every entry carrying the looked-up key survives the filter. -/
theorem assocFind_filter {α : Type} (p : String × α → Bool)
    (b : List (String × α)) (k : String)
    (h : ∀ kv ∈ b, kv.1 = k → p kv = true) :
    assocFind (b.filter p) k = assocFind b k := by
  induction b with
  | nil => simp
  | cons x rest ih =>
      obtain ⟨kx, vx⟩ := x
      have ih' := ih fun kv hm hkk => h kv (by simp [hm]) hkk
      by_cases hk : kx = k
      · subst hk
        have hp : p (kx, vx) = true := h (kx, vx) (by simp) rfl
        simp [List.filter_cons, hp, assocFind]
      · by_cases hp : p (kx, vx) = true <;>
          simp [List.filter_cons, hp, assocFind, hk, ih']

/-- Lookup in the overridden-values half of a spread. -/
theorem assocFind_mergeLeft {α : Type} (b a : List (String × α)) (k : String) :
    assocFind (a.map fun kv => (kv.1, (assocFind b kv.1).getD kv.2)) k =
      (assocFind a k).map fun v => (assocFind b k).getD v := by
  induction a with
  | nil => simp [assocFind]
  | cons x rest ih =>
      obtain ⟨kx, vx⟩ := x
      by_cases h : kx = k <;> simp [assocFind, h, ih]

/-- Lookup in a JS object spread `{...a, ...b}`: the value from `b` when `b`
has the key, else the value from `a`. -/
theorem assocFind_mergeAssoc {α : Type} (a b : List (String × α)) (k : String) :
    assocFind (mergeAssoc a b) k =
      match assocFind a k with
      | some v => some ((assocFind b k).getD v)
      | none => assocFind b k := by
  unfold mergeAssoc
  rw [assocFind_append, assocFind_mergeLeft]
  cases h : assocFind a k with
  | some v => simp
  | none =>
      simp only [Option.map_none]
      exact assocFind_filter _ b k fun kv hm hk => by
        rw [hk, h]; rfl

/-- Membership from a successful association lookup. -/
theorem assocFind_mem {α : Type} (m : List (String × α)) (k : String)
    (v : α) (h : assocFind m k = some v) : (k, v) ∈ m := by
  induction m with
  | nil => simp [assocFind] at h
  | cons x rest ih =>
      obtain ⟨kx, vx⟩ := x
      by_cases hk : kx = k
      · simp [assocFind, hk] at h
        simp [hk, h]
      · simp [assocFind, hk] at h
        exact List.mem_cons_of_mem _ (ih h)

/-- Inversion of a mapped `Except` success. -/
theorem except_map_ok {ε α β : Type} (f : α → β) (x : Except ε α) (l : β)
    (h : Except.map f x = .ok l) : ∃ a, x = .ok a ∧ l = f a := by
  cases x with
  | error e => simp [Except.map] at h
  | ok a =>
      refine ⟨a, rfl, ?_⟩
      simp [Except.map] at h
      exact h.symm

/-- The final `type` of an entry after the parser's closing
`{...entry, type: ...}` rewrite. -/
theorem readProp_merge_type (e : Entry) (v : JVal) :
    readProp (mergeAssoc e [("type", v)]) "type" = v := by
  unfold readProp getProp
  rw [assocFind_mergeAssoc]
  cases h : assocFind e "type" <;> simp [assocFind]

/-- C10: every aspect returned by `parseAspectsFromMarkdown` has type
exactly `'fact'` or `'rule'`: whatever the fenced JSON blocks and the
agent-assisted fallback produce, each surviving deduplicated entry's `type`
is rewritten to `'rule'` when it was strictly `'rule'` and to `'fact'`
otherwise, so no other type value can reach the knowledge store from this
parser. -/
theorem parseAspectsFromMarkdown_C10 (jsonBlocks : List JVal)
    (agentEntries : List Entry) (defaultType : String) (l : List Entry)
    (h : parseAspectsFromMarkdown jsonBlocks agentEntries defaultType = .ok l) :
    ∀ e ∈ l, readProp e "type" = .jstr "fact" ∨
      readProp e "type" = .jstr "rule" := by
  intro e he
  simp only [parseAspectsFromMarkdown] at h
  obtain ⟨l0, hl0, hmap⟩ := except_map_ok _ _ _ h
  subst hmap
  obtain ⟨e0, _, he0⟩ := List.mem_map.mp he
  subst he0
  rw [readProp_merge_type]
  by_cases hc : isStrVal (readProp e0 "type") "rule" = true
  · right; simp [hc]
  · left; simp [hc]

/-- Witness for `parseAspectsFromMarkdown_C10` on a concrete markdown block
whose aspect declares the non-canonical type `'weird'`. -/
theorem parseAspectsFromMarkdown_C10_witness :
    readProp [("type", JVal.jstr "fact"), ("id", JVal.jstr "x"),
        ("content", JVal.jstr "c")] "type" = .jstr "fact" ∨
    readProp [("type", JVal.jstr "fact"), ("id", JVal.jstr "x"),
        ("content", JVal.jstr "c")] "type" = .jstr "rule" := by
  refine parseAspectsFromMarkdown_C10
    [.jobj [("facts", .jarr [.jobj [("id", .jstr "x"), ("type", .jstr "weird"),
      ("content", .jstr "c")]])]] [] "fact"
    [[("type", JVal.jstr "fact"), ("id", JVal.jstr "x"),
      ("content", JVal.jstr "c")]] (by rfl) _ (by simp)

/-- Entries of the citation id lookup come from the scanned aspect list (or
were already in the accumulator), and each scanned entry is keyed by its
aspect's id. -/
theorem citeLookup_mem (l : List EvidenceAspect)
    (acc : List (String × EvidenceAspect)) (kv : String × EvidenceAspect)
    (h : kv ∈ l.foldl
      (fun m a =>
        if a.id ≠ "" ∧ (assocFind m a.id).isNone then m ++ [(a.id, a)] else m)
      acc) :
    kv ∈ acc ∨ (kv.2 ∈ l ∧ kv.1 = kv.2.id) := by
  induction l generalizing acc with
  | nil => simp at h; exact Or.inl h
  | cons x rest ih =>
      simp only [List.foldl_cons] at h
      rcases ih _ h with hacc | ⟨hmem, hkey⟩
      · by_cases hc : x.id ≠ "" ∧ (assocFind acc x.id).isNone
        · rw [if_pos hc] at hacc
          rcases List.mem_append.mp hacc with hl | hr
          · exact Or.inl hl
          · simp at hr
            refine Or.inr ⟨?_, ?_⟩
            · rw [hr]; simp
            · rw [hr]
        · rw [if_neg hc] at hacc
          exact Or.inl hacc
      · exact Or.inr ⟨List.mem_cons_of_mem _ hmem, hkey⟩

/-- A successfully mapped citation projects an aspect found in the lookup,
and its resolved id is the string key of that aspect. -/
theorem mapCitation_ok_some (lookup : List (String × EvidenceAspect))
    (fb : JVal) (c : JVal) (r : CiteResult)
    (h : mapCitation lookup fb c = .ok (some r)) :
    ∃ s a, resolvedCitationId c = .ok (.jstr s) ∧
      assocFind lookup s = some a ∧
      r.fact_id = a.id ∧ r.type = a.type ∧ r.content = a.content := by
  unfold mapCitation at h
  cases hres : resolvedCitationId c with
  | error e => rw [hres] at h; simp at h
  | ok id =>
      simp only [hres] at h
      by_cases ht : jsTruthy id
      · rw [if_neg (by simp [ht])] at h
        cases id with
        | jstr s =>
            cases hfind : assocFind lookup s with
            | none => simp [hfind] at h
            | some a =>
                simp only [hfind, Option.some.injEq] at h
                obtain h' := Except.ok.injEq .. ▸ h
                obtain h'' := Option.some.injEq .. ▸ h'
                subst h''
                exact ⟨s, a, rfl, hfind, rfl, rfl, rfl⟩
        | jnull => simp [jsTruthy] at ht
        | jbool b => simp at h
        | jnum q => simp at h
        | jarr xs => simp at h
        | jobj fs => simp at h
      · rw [if_pos (by simp [ht])] at h
        simp at h

/-- A non-null citation entry never makes the mapper throw. -/
theorem mapCitation_ok_of_notNull (lookup : List (String × EvidenceAspect))
    (fb : JVal) (c : JVal) (hc : c ≠ .jnull) :
    ∃ o, mapCitation lookup fb c = .ok o := by
  have hres : ∃ id, resolvedCitationId c = .ok id := by
    cases c with
    | jnull => exact absurd rfl hc
    | jobj fields => exact ⟨_, rfl⟩
    | jbool b => exact ⟨_, rfl⟩
    | jnum q => exact ⟨_, rfl⟩
    | jstr s => exact ⟨_, rfl⟩
    | jarr xs => exact ⟨_, rfl⟩
  obtain ⟨id, hres⟩ := hres
  unfold mapCitation
  rw [hres]
  simp only []
  by_cases ht : jsTruthy id
  · rw [if_neg (by simp [ht])]
    cases id with
    | jstr s =>
        cases hfind : assocFind lookup s with
        | none => exact ⟨none, by simp [hfind]⟩
        | some a =>
            refine ⟨some (CiteResult.mk a.id a.type a.content
              (jsOrStr a.source (jsOrStr a.resource none))
              (jsOr (citProp c "explanation") (jsOr (citProp c "reason")
                (jsOr (citProp c "justification") .jnull)))
              (jsOr (citProp c "decision") fb)), ?_⟩
            simp only []
            rw [hfind]
    | jnull => exact ⟨none, rfl⟩
    | jbool b => exact ⟨none, rfl⟩
    | jnum q => exact ⟨none, rfl⟩
    | jarr xs => exact ⟨none, rfl⟩
    | jobj fs => exact ⟨none, rfl⟩
  · rw [if_pos (by simp [ht])]
    exact ⟨none, rfl⟩

/-- C8 counterexample: a citation list containing a `null` entry — which
`parseCitationsFromMarkdown` can produce verbatim from a fenced
```json [null]``` block — makes `mapCitationsToResults` throw a `TypeError`
at `entry.id` instead of silently dropping the citation. -/
theorem mapCitationsToResults_C8_counterexample :
    mapCitationsToResults [.jnull] []
      [{ id := "k1", type := "fact", content := "c1" }] .jnull =
      .error "TypeError: Cannot read properties of null" ∧
    ∀ l, mapCitationsToResults [.jnull] []
      [{ id := "k1", type := "fact", content := "c1" }] .jnull ≠ .ok l := by
  exact ⟨rfl, fun l h => by simp [mapCitationsToResults, mapCitationsGo,
    mapCitation, resolvedCitationId] at h⟩

/-- C8 (amended): whenever `mapCitationsToResults` returns (which it always
does when no citation entry is `null`/`undefined`), every returned entry
carries an existing aspect's id, type and content; and with no `null`
entries, citations whose id is falsy, non-string, or matches no stored
aspect id are silently dropped — an all-unknown citation list returns the
empty list without error. -/
theorem mapCitationsToResults_C8 :
    (∀ (citations : List JVal) (ctx all : List EvidenceAspect)
        (fb : JVal) (l : List CiteResult) (r : CiteResult),
      mapCitationsToResults citations ctx all fb = .ok l → r ∈ l →
      ∃ a, a ∈ all ++ ctx ∧ r.fact_id = a.id ∧ r.type = a.type ∧
        r.content = a.content) ∧
    (∀ (citations : List JVal) (ctx all : List EvidenceAspect) (fb : JVal),
      (∀ c ∈ citations, c ≠ .jnull) →
      (∀ c ∈ citations, ∀ s, resolvedCitationId c = .ok (.jstr s) →
        ∀ a, a ∈ all ++ ctx → a.id ≠ s) →
      mapCitationsToResults citations ctx all fb = .ok []) := by
  have hgo1 : ∀ (lookup : List (String × EvidenceAspect)) (fb : JVal)
      (citations : List JVal) (l : List CiteResult),
      mapCitationsGo lookup fb citations = .ok l → ∀ r ∈ l,
      ∃ s a, assocFind lookup s = some a ∧ r.fact_id = a.id ∧
        r.type = a.type ∧ r.content = a.content := by
    intro lookup fb citations
    induction citations with
    | nil => intro l h r hr; simp [mapCitationsGo] at h; subst h; simp at hr
    | cons c rest ih =>
        intro l h r hr
        unfold mapCitationsGo at h
        cases hm : mapCitation lookup fb c with
        | error e => rw [hm] at h; simp at h
        | ok o =>
            cases o with
            | none =>
                rw [hm] at h
                exact ih l h r hr
            | some r0 =>
                rw [hm] at h
                cases hrest : mapCitationsGo lookup fb rest with
                | error e => rw [hrest] at h; simp [Except.map] at h
                | ok l' =>
                    rw [hrest] at h
                    simp only [Except.map, Except.ok.injEq] at h
                    subst h
                    rcases List.mem_cons.mp hr with hr0 | hr'
                    · subst hr0
                      obtain ⟨s, a, _, hfind, h1, h2, h3⟩ :=
                        mapCitation_ok_some lookup fb c r hm
                      exact ⟨s, a, hfind, h1, h2, h3⟩
                    · exact ih l' hrest r hr'
  have hgo2 : ∀ (ctx all : List EvidenceAspect) (fb : JVal)
      (citations : List JVal),
      (∀ c ∈ citations, c ≠ .jnull) →
      (∀ c ∈ citations, ∀ s, resolvedCitationId c = .ok (.jstr s) →
        ∀ a, a ∈ all ++ ctx → a.id ≠ s) →
      mapCitationsGo (citeLookup (all ++ ctx)) fb citations = .ok [] := by
    intro ctx all fb citations
    induction citations with
    | nil => intro _ _; rfl
    | cons c rest ih =>
        intro hnn hbad
        unfold mapCitationsGo
        obtain ⟨o, ho⟩ := mapCitation_ok_of_notNull
          (citeLookup (all ++ ctx)) fb c (hnn c (by simp))
        cases o with
        | none =>
            rw [ho]
            exact ih (fun c' hc' => hnn c' (List.mem_cons_of_mem _ hc'))
              (fun c' hc' => hbad c' (List.mem_cons_of_mem _ hc'))
        | some r =>
            obtain ⟨s, a, hid, hfind, _, _, _⟩ :=
              mapCitation_ok_some _ fb c r ho
            have hmem := citeLookup_mem (all ++ ctx) [] (s, a)
              (assocFind_mem _ _ _ hfind)
            rcases hmem with habs | ⟨hin, hkey⟩
            · simp at habs
            · exact absurd hkey.symm (hbad c (by simp) s hid a hin)
  constructor
  · intro citations ctx all fb l r h hr
    unfold mapCitationsToResults at h
    by_cases hemp : citations.isEmpty
    · rw [if_pos (by simp [hemp])] at h
      obtain h' := Except.ok.injEq .. ▸ h
      subst h'
      simp at hr
    · rw [if_neg (by simp [hemp])] at h
      obtain ⟨s, a, hfind, h1, h2, h3⟩ :=
        hgo1 (citeLookup (all ++ ctx)) fb citations l h r hr
      have hmem := citeLookup_mem (all ++ ctx) [] (s, a)
        (assocFind_mem _ _ _ hfind)
      rcases hmem with habs | ⟨hin, _⟩
      · simp at habs
      · exact ⟨a, hin, h1, h2, h3⟩
  · intro citations ctx all fb hnn hbad
    unfold mapCitationsToResults
    by_cases hemp : citations.isEmpty
    · rw [if_pos (by simp [hemp])]
    · rw [if_neg (by simp [hemp])]
      exact hgo2 ctx all fb citations hnn hbad

/-- Witness for `mapCitationsToResults_C8`: a matching citation projects
the stored aspect, and an all-unknown (non-null) citation list yields the
empty result without error. -/
theorem mapCitationsToResults_C8_witness :
    (∃ a, a ∈ ([{ id := "k1", type := "fact", content := "c1" }] :
        List EvidenceAspect) ++ ([] : List EvidenceAspect) ∧
      ({ fact_id := "k1", type := "fact", content := "c1", source := none,
         explanation := .jnull, decision := .jnull } : CiteResult).fact_id =
        a.id ∧
      ({ fact_id := "k1", type := "fact", content := "c1", source := none,
         explanation := .jnull, decision := .jnull } : CiteResult).type =
        a.type ∧
      ({ fact_id := "k1", type := "fact", content := "c1", source := none,
         explanation := .jnull, decision := .jnull } : CiteResult).content =
        a.content) ∧
    mapCitationsToResults [.jobj [("id", .jstr "zzz")]] []
      [{ id := "k1", type := "fact", content := "c1" }] .jnull = .ok [] := by
  constructor
  · refine mapCitationsToResults_C8.1 [.jobj [("fact_id", .jstr "k1")]] []
      [{ id := "k1", type := "fact", content := "c1" }] .jnull
      [{ fact_id := "k1", type := "fact", content := "c1", source := none,
         explanation := .jnull, decision := .jnull }] _ rfl (by simp)
  · refine mapCitationsToResults_C8.2 [.jobj [("id", .jstr "zzz")]] []
      [{ id := "k1", type := "fact", content := "c1" }] .jnull ?_ ?_
    · intro c hc
      simp at hc
      subst hc
      simp
    · intro c hc s hs a ha
      simp at hc
      subst hc
      simp [resolvedCitationId, readProp, getProp, assocFind, jsOr,
        jsTruthy] at hs
      simp at ha
      subst ha
      subst hs
      simp

/-- A successful option resolution implies every `%`-typed argument found
its provider. -/
theorem resolveArgsList_ok_provider (args : List (String × ArgDef))
    (ps : List (String × ProviderFn))
    (m : List (String × List OptPair)) (h : resolveArgsList args ps = .ok m) :
    ∀ n d, (n, d) ∈ args → ∀ t, d.type = some t →
      strStartsWith t "%" = true →
      (assocFind ps (strDrop t 1)).isSome := by
  induction args generalizing m with
  | nil => intro n d hmem; simp at hmem
  | cons x rest ih =>
      intro n d hmem t ht hst
      obtain ⟨n0, d0⟩ := x
      unfold resolveArgsList at h
      rcases List.mem_cons.mp hmem with hx | hrest
      · obtain ⟨hn, hd⟩ := Prod.mk.injEq .. ▸ hx
        subst hn; subst hd
        rw [ht] at h
        simp only [Option.getD_some] at h
        rw [if_pos hst] at h
        cases hfind : assocFind ps (strDrop t 1) with
        | none => simp [hfind] at h
        | some f => simp
      · by_cases hstart : strStartsWith (d0.type.getD "") "%" = true
        · rw [if_pos hstart] at h
          cases hfind : assocFind ps (strDrop (d0.type.getD "") 1) with
          | none => simp [hfind] at h
          | some f =>
              simp only [hfind] at h
              cases hcall : f n0 d0 with
              | error e => simp [hcall] at h
              | ok raw =>
                  simp only [hcall] at h
                  cases hrec : resolveArgsList rest ps with
                  | error e => simp [hrec, Except.map] at h
                  | ok m' => exact ih m' hrec n d hrest t ht hst
        · rw [if_neg hstart] at h
          cases hrec : resolveArgsList rest ps with
          | error e => simp [hrec, Except.map] at h
          | ok m' => exact ih m' hrec n d hrest t ht hst

/-- One-step unfolding of `resolveArgsList` (the loop body for the first
argument). -/
theorem resolveArgsList_cons (n0 : String) (d0 : ArgDef)
    (rest : List (String × ArgDef)) (ps : List (String × ProviderFn)) :
    resolveArgsList ((n0, d0) :: rest) ps =
      if strStartsWith (d0.type.getD "") "%" = true then
        match assocFind ps (strDrop (d0.type.getD "") 1) with
        | none => .error ("Missing options provider '" ++
            strDrop (d0.type.getD "") 1 ++ "' for argument '" ++ n0 ++ "'.")
        | some provider =>
            match provider n0 d0 with
            | .error e => .error e
            | .ok rawOptions =>
                (resolveArgsList rest ps).map
                  ((n0, normalizeOptions rawOptions) :: ·)
      else (resolveArgsList rest ps).map ((n0, []) :: ·) := rfl

/-- Option resolution over an appended argument list: the left part runs
first; its error short-circuits, otherwise its result is prepended. -/
theorem resolveArgsList_append (a b : List (String × ArgDef))
    (ps : List (String × ProviderFn)) :
    resolveArgsList (a ++ b) ps =
      match resolveArgsList a ps with
      | .error e => .error e
      | .ok m => (resolveArgsList b ps).map (m ++ ·) := by
  induction a with
  | nil =>
      simp only [List.nil_append, resolveArgsList]
      cases h : resolveArgsList b ps <;> simp [Except.map]
  | cons x rest ih =>
      obtain ⟨n0, d0⟩ := x
      simp only [List.cons_append, resolveArgsList_cons]
      by_cases hstart : strStartsWith (d0.type.getD "") "%" = true
      · rw [if_pos hstart, if_pos hstart]
        cases hfind : assocFind ps (strDrop (d0.type.getD "") 1) with
        | none => simp only []
        | some f =>
            simp only []
            cases hcall : f n0 d0 with
            | error e => simp only []
            | ok raw =>
                simp only []
                rw [ih]
                cases hra : resolveArgsList rest ps with
                | error e => rfl
                | ok m' =>
                    cases hb : resolveArgsList b ps <;> simp [Except.map]
      · rw [if_neg hstart, if_neg hstart]
        rw [ih]
        cases hra : resolveArgsList rest ps with
        | error e => rfl
        | ok m' =>
            cases hb : resolveArgsList b ps <;> simp [Except.map]

/-- One-step unfolding of `buildFirstPass` (the registration loop body for
the first argument). -/
theorem buildFirstPass_cons (m : SkillModule) (sk n0 : String) (d0 : ArgDef)
    (rest : List (String × ArgDef)) :
    buildFirstPass m sk ((n0, d0) :: rest) =
      match d0.enumerator with
      | some outcome =>
          (buildFirstPass m sk rest).map fun rp =>
            ((n0,
              match outcome with
              | .error _ => []
              | .ok raw => normalizeOptions raw) :: rp.1, rp.2)
      | none =>
          if strStartsWith (d0.type.getD "") "%" = true then
            match assocFind m.moduleProviders
                (strDrop (d0.type.getD "") 1) with
            | none => .error ("Skill '" ++ sk ++
                "' is missing options provider '" ++
                strDrop (d0.type.getD "") 1 ++
                "' for argument '" ++ n0 ++ "'.")
            | some f =>
                (buildFirstPass m sk rest).map fun rp =>
                  (rp.1, (strDrop (d0.type.getD "") 1, f) :: rp.2)
          else buildFirstPass m sk rest := rfl

/-- A successful registration first pass implies every `%`-typed argument
without an enumerator found its provider on the skill module. -/
theorem buildFirstPass_ok_provider (m : SkillModule) (sk : String)
    (args : List (String × ArgDef))
    (rp : List (String × List OptPair) × List (String × ProviderFn))
    (h : buildFirstPass m sk args = .ok rp) :
    ∀ n d, (n, d) ∈ args → d.enumerator = none → ∀ t, d.type = some t →
      strStartsWith t "%" = true →
      (assocFind m.moduleProviders (strDrop t 1)).isSome := by
  induction args generalizing rp with
  | nil => intro n d hmem; simp at hmem
  | cons x rest ih =>
      intro n d hmem henum t ht hst
      obtain ⟨n0, d0⟩ := x
      rw [buildFirstPass_cons] at h
      rcases List.mem_cons.mp hmem with hx | hrest
      · obtain ⟨hn, hd⟩ := Prod.mk.injEq .. ▸ hx
        subst hn; subst hd
        rw [henum, ht] at h
        simp only [Option.getD_some] at h
        rw [if_pos hst] at h
        cases hfind : assocFind m.moduleProviders (strDrop t 1) with
        | none => simp [hfind] at h
        | some f => simp
      · cases he0 : d0.enumerator with
        | some outcome =>
            simp only [he0] at h
            cases hrec : buildFirstPass m sk rest with
            | error e => simp [hrec, Except.map] at h
            | ok rp' => exact ih rp' hrec n d hrest henum t ht hst
        | none =>
            simp only [he0] at h
            by_cases hstart : strStartsWith (d0.type.getD "") "%" = true
            · rw [if_pos hstart] at h
              cases hfind : assocFind m.moduleProviders
                  (strDrop (d0.type.getD "") 1) with
              | none => simp [hfind] at h
              | some f =>
                  simp only [hfind] at h
                  cases hrec : buildFirstPass m sk rest with
                  | error e => simp [hrec, Except.map] at h
                  | ok rp' => exact ih rp' hrec n d hrest henum t ht hst
            · rw [if_neg hstart] at h
              exact ih rp h n d hrest henum t ht hst

/-- The registration first pass over an appended argument list: the left
part runs first; its error short-circuits, otherwise its collected options
and providers are prepended. -/
theorem buildFirstPass_append (m : SkillModule) (sk : String)
    (a b : List (String × ArgDef)) :
    buildFirstPass m sk (a ++ b) =
      match buildFirstPass m sk a with
      | .error e => .error e
      | .ok rp => (buildFirstPass m sk b).map
          (fun rp' => (rp.1 ++ rp'.1, rp.2 ++ rp'.2)) := by
  induction a with
  | nil =>
      simp only [List.nil_append, buildFirstPass]
      cases h : buildFirstPass m sk b with
      | error e => simp [Except.map]
      | ok rp => simp [Except.map]
  | cons x rest ih =>
      obtain ⟨n0, d0⟩ := x
      simp only [List.cons_append, buildFirstPass_cons]
      cases he0 : d0.enumerator with
      | some outcome =>
          simp only []
          rw [ih]
          cases hra : buildFirstPass m sk rest with
          | error e => rfl
          | ok rp' =>
              cases hb : buildFirstPass m sk b <;> simp [Except.map]
      | none =>
          simp only []
          by_cases hstart : strStartsWith (d0.type.getD "") "%" = true
          · rw [if_pos hstart, if_pos hstart]
            cases hfind : assocFind m.moduleProviders
                (strDrop (d0.type.getD "") 1) with
            | none => simp only []
            | some f =>
                simp only []
                rw [ih]
                cases hra : buildFirstPass m sk rest with
                | error e => rfl
                | ok rp' =>
                    cases hb : buildFirstPass m sk b <;> simp [Except.map]
          · rw [if_neg hstart, if_neg hstart]
            exact ih

/-- Every provider collected by the registration first pass is a function
found on the skill module under the same name. -/
theorem buildFirstPass_providers_from_module (m : SkillModule) (sk : String)
    (args : List (String × ArgDef)) (res : List (String × List OptPair))
    (provs : List (String × ProviderFn))
    (h : buildFirstPass m sk args = .ok (res, provs)) :
    ∀ p f, assocFind provs p = some f →
      assocFind m.moduleProviders p = some f := by
  induction args generalizing res provs with
  | nil =>
      intro p f hp
      obtain h' := Except.ok.injEq .. ▸ h
      obtain ⟨_, h2⟩ := Prod.mk.injEq .. ▸ h'
      rw [← h2] at hp
      simp [assocFind] at hp
  | cons x rest ih =>
      intro p f hp
      obtain ⟨n0, d0⟩ := x
      rw [buildFirstPass_cons] at h
      cases he0 : d0.enumerator with
      | some outcome =>
          simp only [he0] at h
          cases hrec : buildFirstPass m sk rest with
          | error e => simp [hrec, Except.map] at h
          | ok rp' =>
              obtain ⟨r', p'⟩ := rp'
              simp only [hrec, Except.map] at h
              obtain h' := Except.ok.injEq .. ▸ h
              obtain ⟨_, h2⟩ := Prod.mk.injEq .. ▸ h'
              rw [← h2] at hp
              exact ih r' p' hrec p f hp
      | none =>
          simp only [he0] at h
          by_cases hstart : strStartsWith (d0.type.getD "") "%" = true
          · rw [if_pos hstart] at h
            cases hfind0 : assocFind m.moduleProviders
                (strDrop (d0.type.getD "") 1) with
            | none => simp [hfind0] at h
            | some f0 =>
                simp only [hfind0] at h
                cases hrec : buildFirstPass m sk rest with
                | error e => simp [hrec, Except.map] at h
                | ok rp' =>
                    obtain ⟨r', p'⟩ := rp'
                    simp only [hrec, Except.map] at h
                    obtain h' := Except.ok.injEq .. ▸ h
                    obtain ⟨_, h2⟩ := Prod.mk.injEq .. ▸ h'
                    rw [← h2] at hp
                    by_cases hpq : strDrop (d0.type.getD "") 1 = p
                    · simp [assocFind, hpq] at hp
                      rw [← hp, ← hpq]
                      exact hfind0
                    · simp [assocFind, hpq] at hp
                      exact ih r' p' hrec p f hp
          · rw [if_neg hstart] at h
            exact ih res provs h p f hp

/-- C6 (amended): an argument whose declared type names a `%`-provider
missing from the module (respectively from the supplied providers map)
makes option resolution fail — no option map is ever returned, at either
layer and whether or not the argument also carries an enumerator; the error
of the first such argument names the missing provider and the affected
argument, and at the registration layer it additionally names the skill
when the affected argument carries no function-valued enumerator (an
enumerator argument skips the first-pass provider check, so its missing
provider surfaces from the helper layer without the skill name, as the
counterexample shows). -/
theorem optionsResolver_C6 :
    (∀ (args : List (String × ArgDef)) (ps : List (String × ProviderFn))
        (n : String) (d : ArgDef) (t : String),
      (n, d) ∈ args → d.type = some t → strStartsWith t "%" = true →
      assocFind ps (strDrop t 1) = none →
      ∀ mres, resolveArgsList args ps ≠ .ok mres) ∧
    (∀ (pre rest : List (String × ArgDef)) (ps : List (String × ProviderFn))
        (n : String) (d : ArgDef) (t : String)
        (m0 : List (String × List OptPair)),
      resolveArgsList pre ps = .ok m0 → d.type = some t →
      strStartsWith t "%" = true → assocFind ps (strDrop t 1) = none →
      resolveArgsList (pre ++ (n, d) :: rest) ps =
        .error ("Missing options provider '" ++ strDrop t 1 ++
          "' for argument '" ++ n ++ "'.")) ∧
    (∀ (m : SkillModule) (spec : SpecDef) (args : List (String × ArgDef))
        (n : String) (d : ArgDef) (t : String),
      m.specs = some spec → spec.arguments = some args → (n, d) ∈ args →
      d.type = some t → strStartsWith t "%" = true →
      assocFind m.moduleProviders (strDrop t 1) = none →
      ∀ mres, buildOptionsResolver m ≠ .ok mres) ∧
    (∀ (m : SkillModule) (spec : SpecDef) (pre rest : List (String × ArgDef))
        (n : String) (d : ArgDef) (t : String)
        (r0 : List (String × List OptPair)) (p0 : List (String × ProviderFn)),
      m.specs = some spec → spec.arguments = some (pre ++ (n, d) :: rest) →
      buildFirstPass m ((jsOrStr spec.name (some "unknown")).getD "unknown")
        pre = .ok (r0, p0) →
      d.enumerator = none → d.type = some t → strStartsWith t "%" = true →
      assocFind m.moduleProviders (strDrop t 1) = none →
      buildOptionsResolver m =
        .error ("Skill '" ++
          (jsOrStr spec.name (some "unknown")).getD "unknown" ++
          "' is missing options provider '" ++ strDrop t 1 ++
          "' for argument '" ++ n ++ "'.")) := by
  refine ⟨?_, ?_, ?_, ?_⟩
  · intro args ps n d t hmem ht hst hfind mres hok
    have := resolveArgsList_ok_provider args ps mres hok n d hmem t ht hst
    rw [hfind] at this
    simp at this
  · intro pre rest ps n d t m0 hm0 ht hst hfind
    rw [resolveArgsList_append, hm0]
    rw [resolveArgsList_cons, ht]
    simp only [Option.getD_some]
    rw [if_pos hst]
    simp only [hfind]
    rfl
  · intro m spec args n d t hspec hargs hmem ht hst hfind mres hok
    unfold buildOptionsResolver at hok
    rw [hspec] at hok
    simp only [] at hok
    rw [hargs] at hok
    simp only [] at hok
    cases hbp : buildFirstPass m
        ((jsOrStr spec.name (some "unknown")).getD "unknown") args with
    | error e => simp [hbp] at hok
    | ok rp =>
        cases he : d.enumerator with
        | none =>
            have := buildFirstPass_ok_provider m _ args rp hbp n d hmem he t
              ht hst
            rw [hfind] at this
            simp at this
        | some outcome =>
            obtain ⟨r0, p0⟩ := rp
            simp only [hbp] at hok
            unfold resolveArgumentOptions at hok
            simp only [] at hok
            cases hro : resolveArgsList args p0 with
            | error e => simp [hro] at hok
            | ok povs =>
                have hsome := resolveArgsList_ok_provider args p0 povs hro
                  n d hmem t ht hst
                obtain ⟨f, hf⟩ := Option.isSome_iff_exists.mp hsome
                have hmod := buildFirstPass_providers_from_module m _ args
                  r0 p0 hbp (strDrop t 1) f hf
                rw [hfind] at hmod
                simp at hmod
  · intro m spec pre rest n d t r0 p0 hspec hargs hbp henum ht hst hfind
    unfold buildOptionsResolver
    rw [hspec]
    simp only []
    rw [hargs]
    simp only []
    rw [buildFirstPass_append, hbp]
    rw [buildFirstPass_cons, henum]
    simp only []
    rw [ht]
    simp only [Option.getD_some]
    rw [if_pos hst]
    simp only [hfind]
    rfl

/-- C6 counterexample: the argument `x` carries both an enumerator and the
type `%p` with `p` missing from the module; registration-layer resolution
fails, but with the helper-layer message that names only the provider and
the argument — not the skill `s` — because the enumerator branch of the
first pass skips the skill-naming provider check. -/
theorem optionsResolver_C6_counterexample :
    (∃ d : ArgDef, ("x", d) ∈
        (((mixedMissingProviderModule.specs.getD {}).arguments).getD []) ∧
      d.type = some "%p" ∧ d.enumerator.isSome ∧
      assocFind mixedMissingProviderModule.moduleProviders "p" = none) ∧
    buildOptionsResolver mixedMissingProviderModule =
      .error "Missing options provider 'p' for argument 'x'." ∧
    "Missing options provider 'p' for argument 'x'." ≠
      "Skill 's' is missing options provider 'p' for argument 'x'." := by
  refine ⟨⟨{ type := some "%p", enumerator := some (.ok (.jarr [])) },
    by simp [mixedMissingProviderModule], rfl, rfl, rfl⟩, rfl, by decide⟩

/-- Witness for `optionsResolver_C6`: a single `%p`-typed argument with no
provider, at both layers. -/
theorem optionsResolver_C6_witness :
    (∀ mres, resolveArgsList [("x", { type := some "%p" })] [] ≠ .ok mres) ∧
    resolveArgsList [("x", { type := some "%p" })] [] =
      .error "Missing options provider 'p' for argument 'x'." ∧
    (∀ mres, buildOptionsResolver missingProviderModule ≠ .ok mres) ∧
    buildOptionsResolver missingProviderModule =
      .error "Skill 'unknown' is missing options provider 'p' for argument 'x'." := by
  refine ⟨?_, ?_, ?_, ?_⟩
  · exact optionsResolver_C6.1 [("x", { type := some "%p" })] [] "x"
      { type := some "%p" } "%p" (by simp) rfl (by decide) rfl
  · have h := optionsResolver_C6.2.1 [] [("x", { type := some "%p" })] [] "x"
      { type := some "%p" } "%p" [] rfl rfl (by decide) rfl
    simpa using h
  · exact optionsResolver_C6.2.2.1 missingProviderModule
      { name := none, arguments := some [("x", { type := some "%p" })] }
      [("x", { type := some "%p" })] "x" { type := some "%p" } "%p" rfl rfl
      (by simp) rfl (by decide) rfl
  · have h := optionsResolver_C6.2.2.2 missingProviderModule
      { name := none, arguments := some [("x", { type := some "%p" })] }
      [] [] "x" { type := some "%p" } "%p" [] [] rfl rfl rfl rfl rfl
      (by decide) rfl
    simpa using h

/-- When every `%`-typed argument without an enumerator has its provider on
the module, the registration first pass succeeds; its option part covers
the enumerator arguments, and its collected providers agree with the
module's and cover every `%`-typed argument. -/
theorem buildFirstPass_ok_of (m : SkillModule) (sk : String) :
    ∀ args : List (String × ArgDef),
    (∀ n d, (n, d) ∈ args → d.enumerator = none → ∀ t, d.type = some t →
      strStartsWith t "%" = true →
      (assocFind m.moduleProviders (strDrop t 1)).isSome) →
    ∃ res provs, buildFirstPass m sk args = .ok (res, provs) ∧
      (∀ n d, (n, d) ∈ args → d.enumerator.isSome →
        ∃ o, assocFind res n = some o) ∧
      (∀ p f, assocFind provs p = some f →
        assocFind m.moduleProviders p = some f) ∧
      (∀ n d, (n, d) ∈ args → d.enumerator = none → ∀ t, d.type = some t →
        strStartsWith t "%" = true → (assocFind provs (strDrop t 1)).isSome) := by
  intro args
  induction args with
  | nil =>
      intro _
      exact ⟨[], [], rfl, by simp, by simp [assocFind], by simp⟩
  | cons x rest ih =>
      intro hcov
      obtain ⟨n0, d0⟩ := x
      obtain ⟨res', provs', hok, h1, h2, h3⟩ := ih fun n d hmem henum t ht hst =>
        hcov n d (List.mem_cons_of_mem _ hmem) henum t ht hst
      cases he0 : d0.enumerator with
      | some outcome =>
          have hstep : ∃ opts, buildFirstPass m sk ((n0, d0) :: rest) =
              .ok ((n0, opts) :: res', provs') := by
            cases outcome with
            | error err =>
                exact ⟨[],
                  by simp only [buildFirstPass_cons, he0, hok, Except.map]⟩
            | ok raw =>
                exact ⟨normalizeOptions raw,
                  by simp only [buildFirstPass_cons, he0, hok, Except.map]⟩
          obtain ⟨opts, hstep⟩ := hstep
          refine ⟨(n0, opts) :: res', provs', hstep, ?_, h2, ?_⟩
          · intro n d hmem hisSome
            by_cases hn : n0 = n
            · exact ⟨opts, by simp [assocFind, hn]⟩
            · rcases List.mem_cons.mp hmem with hx | hrest
              · obtain ⟨hn', _⟩ := Prod.mk.injEq .. ▸ hx
                exact absurd hn'.symm hn
              · obtain ⟨o, ho⟩ := h1 n d hrest hisSome
                exact ⟨o, by simp [assocFind, hn, ho]⟩
          · intro n d hmem henum t ht hst
            rcases List.mem_cons.mp hmem with hx | hrest
            · obtain ⟨hn', hd⟩ := Prod.mk.injEq .. ▸ hx
              subst hd
              rw [he0] at henum
              simp at henum
            · exact h3 n d hrest henum t ht hst
      | none =>
          by_cases hstart : strStartsWith (d0.type.getD "") "%" = true
          · cases ht0 : d0.type with
            | none =>
                rw [ht0] at hstart
                simp only [Option.getD_none] at hstart
                exact absurd hstart (by decide)
            | some t0 =>
                have hst0 : strStartsWith t0 "%" = true := by
                  rw [ht0] at hstart
                  simpa using hstart
                have hsome := hcov n0 d0 (by simp) he0 t0 ht0 hst0
                obtain ⟨f, hf⟩ := Option.isSome_iff_exists.mp hsome
                refine ⟨res', (strDrop t0 1, f) :: provs', ?_, ?_, ?_, ?_⟩
                · rw [buildFirstPass_cons]
                  simp only [he0, ht0, Option.getD_some]
                  rw [if_pos hst0]
                  simp only [hf, hok, Except.map]
                · intro n d hmem hisSome
                  rcases List.mem_cons.mp hmem with hx | hrest
                  · obtain ⟨hn', hd⟩ := Prod.mk.injEq .. ▸ hx
                    subst hd
                    rw [he0] at hisSome
                    simp at hisSome
                  · exact h1 n d hrest hisSome
                · intro p g hg
                  by_cases hp : strDrop t0 1 = p
                  · simp [assocFind, hp] at hg
                    rw [← hg, ← hp]
                    exact hf
                  · simp [assocFind, hp] at hg
                    exact h2 p g hg
                · intro n d hmem henum t ht hst
                  by_cases hp : strDrop t0 1 = strDrop t 1
                  · simp [assocFind, hp]
                  · rcases List.mem_cons.mp hmem with hx | hrest
                    · obtain ⟨hn', hd⟩ := Prod.mk.injEq .. ▸ hx
                      subst hd
                      rw [ht0] at ht
                      obtain ht' := Option.some.injEq .. ▸ ht
                      rw [ht'] at hp
                      simp at hp
                    · have := h3 n d hrest henum t ht hst
                      simpa [assocFind, hp] using this
          · refine ⟨res', provs', ?_, ?_, h2, ?_⟩
            · rw [buildFirstPass_cons]
              simp only [he0]
              rw [if_neg hstart]
              exact hok
            · intro n d hmem hisSome
              rcases List.mem_cons.mp hmem with hx | hrest
              · obtain ⟨hn', hd⟩ := Prod.mk.injEq .. ▸ hx
                subst hd
                rw [he0] at hisSome
                simp at hisSome
              · exact h1 n d hrest hisSome
            · intro n d hmem henum t ht hst
              rcases List.mem_cons.mp hmem with hx | hrest
              · obtain ⟨hn', hd⟩ := Prod.mk.injEq .. ▸ hx
                subst hd
                rw [ht] at hstart
                simp only [Option.getD_some] at hstart
                exact absurd hst hstart
              · exact h3 n d hrest henum t ht hst

/-- When every `%`-typed argument's provider is present (and its invocation
succeeds), option resolution succeeds with one entry per argument (in
order), and arguments without a `%` type get the empty option list. -/
theorem resolveArgsList_ok_of (ps : List (String × ProviderFn)) :
    ∀ args : List (String × ArgDef),
    (∀ n d, (n, d) ∈ args → ∀ t, d.type = some t →
      strStartsWith t "%" = true →
      ∃ f raw, assocFind ps (strDrop t 1) = some f ∧ f n d = .ok raw) →
    (args.map Prod.fst).Nodup →
    ∃ povs, resolveArgsList args ps = .ok povs ∧
      ∀ n d, (n, d) ∈ args → ∃ opts, assocFind povs n = some opts ∧
        (strStartsWith (d.type.getD "") "%" = false → opts = []) := by
  intro args
  induction args with
  | nil =>
      intro _ _
      exact ⟨[], rfl, by simp⟩
  | cons x rest ih =>
      intro hcov hnodup
      obtain ⟨n0, d0⟩ := x
      simp only [List.map_cons, List.nodup_cons] at hnodup
      obtain ⟨hn0, hnodup'⟩ := hnodup
      obtain ⟨povs', hok, hpt⟩ := ih
        (fun n d hmem t ht hst => hcov n d (List.mem_cons_of_mem _ hmem) t ht hst)
        hnodup'
      by_cases hstart : strStartsWith (d0.type.getD "") "%" = true
      · cases ht0 : d0.type with
        | none =>
            rw [ht0] at hstart
            simp only [Option.getD_none] at hstart
            exact absurd hstart (by decide)
        | some t0 =>
            have hst0 : strStartsWith t0 "%" = true := by
              rw [ht0] at hstart
              simpa using hstart
            obtain ⟨f, raw, hf, hcall⟩ := hcov n0 d0 (by simp) t0 ht0 hst0
            refine ⟨(n0, normalizeOptions raw) :: povs', ?_, ?_⟩
            · rw [resolveArgsList_cons]
              simp only [ht0, Option.getD_some]
              rw [if_pos hst0]
              simp only [hf, hcall, hok, Except.map]
            · intro n d hmem
              rcases List.mem_cons.mp hmem with hx | hrest
              · obtain ⟨hn', hd⟩ := Prod.mk.injEq .. ▸ hx
                subst hn'; subst hd
                refine ⟨normalizeOptions raw, by simp [assocFind], ?_⟩
                intro hfalse
                rw [ht0] at hfalse
                simp only [Option.getD_some] at hfalse
                rw [hst0] at hfalse
                simp at hfalse
              · have hne : n0 ≠ n := by
                  intro hEq
                  exact hn0 (hEq ▸ List.mem_map_of_mem Prod.fst hrest)
                obtain ⟨opts, ho, hempty⟩ := hpt n d hrest
                exact ⟨opts, by simp [assocFind, hne, ho], hempty⟩
      · refine ⟨(n0, []) :: povs', ?_, ?_⟩
        · rw [resolveArgsList_cons]
          rw [if_neg hstart]
          simp only [hok, Except.map]
        · intro n d hmem
          rcases List.mem_cons.mp hmem with hx | hrest
          · obtain ⟨hn', hd⟩ := Prod.mk.injEq .. ▸ hx
            subst hn'; subst hd
            exact ⟨[], by simp [assocFind], fun _ => rfl⟩
          · have hne : n0 ≠ n := by
              intro hEq
              exact hn0 (hEq ▸ List.mem_map_of_mem Prod.fst hrest)
            obtain ⟨opts, ho, hempty⟩ := hpt n d hrest
            exact ⟨opts, by simp [assocFind, hne, ho], hempty⟩

/-- C7 counterexample: an argument carrying both a throwing function-valued
`enumerator` and a `%foo` type (with `foo` present on the module) makes the
whole resolution pass abort: the enumerator branch skips provider
collection, so `resolveArgumentOptions` later throws — the claim's
"a misbehaving enumerator never aborts the whole resolution pass" fails
here. -/
theorem buildOptionsResolver_C7_counterexample :
    (∃ d : ArgDef, ("a", d) ∈
        (((mixedEnumeratorModule.specs.getD {}).arguments).getD []) ∧
      d.enumerator = some (.error "boom")) ∧
    buildOptionsResolver mixedEnumeratorModule =
      .error "Missing options provider 'foo' for argument 'a'." := by
  constructor
  · exact ⟨{ type := some "%foo", enumerator := some (.error "boom") },
      by simp [mixedEnumeratorModule], rfl⟩
  · rfl

/-- C7 (amended): provided no argument combines a function-valued
`enumerator` with a `%`-typed declaration, and every `%`-typed argument's
provider exists on the module and returns normally, a throwing enumerator
is caught: resolution still succeeds, the throwing argument resolves to the
empty option list, and every other argument still gets an option list. -/
theorem buildOptionsResolver_C7_amended
    (m : SkillModule) (spec : SpecDef) (args : List (String × ArgDef))
    (n0 : String) (d0 : ArgDef) (err : String)
    (hspec : m.specs = some spec) (hargs : spec.arguments = some args)
    (hnodup : (args.map Prod.fst).Nodup)
    (hmix : ∀ n d, (n, d) ∈ args → d.enumerator.isSome →
      strStartsWith (d.type.getD "") "%" = false)
    (hprov : ∀ n d, (n, d) ∈ args → d.enumerator = none → ∀ t,
      d.type = some t → strStartsWith t "%" = true →
      ∃ f raw, assocFind m.moduleProviders (strDrop t 1) = some f ∧
        f n d = .ok raw)
    (hmem : (n0, d0) ∈ args) (henum : d0.enumerator = some (.error err)) :
    ∃ mres, buildOptionsResolver m = .ok mres ∧
      assocFind mres n0 = some [] ∧
      ∀ n d, (n, d) ∈ args → ∃ opts, assocFind mres n = some opts := by
  have hcov : ∀ n d, (n, d) ∈ args → d.enumerator = none → ∀ t,
      d.type = some t → strStartsWith t "%" = true →
      (assocFind m.moduleProviders (strDrop t 1)).isSome := by
    intro n d hm he t ht hst
    obtain ⟨f, raw, hf, _⟩ := hprov n d hm he t ht hst
    simp [hf]
  obtain ⟨res, provs, hbp, h1, h2, h3⟩ := buildFirstPass_ok_of m
    ((jsOrStr spec.name (some "unknown")).getD "unknown") args hcov
  have hcov2 : ∀ n d, (n, d) ∈ args → ∀ t, d.type = some t →
      strStartsWith t "%" = true →
      ∃ f raw, assocFind provs (strDrop t 1) = some f ∧ f n d = .ok raw := by
    intro n d hm t ht hst
    cases he : d.enumerator with
    | some o =>
        have hfalse := hmix n d hm (by simp [he])
        rw [ht] at hfalse
        simp only [Option.getD_some] at hfalse
        rw [hst] at hfalse
        simp at hfalse
    | none =>
        obtain ⟨f, raw, hf, hcall⟩ := hprov n d hm he t ht hst
        obtain ⟨f', hf'⟩ := Option.isSome_iff_exists.mp (h3 n d hm he t ht hst)
        have hmod := h2 _ _ hf'
        rw [hf] at hmod
        have hff : f = f' := by
          exact (Option.some.injEq .. ▸ hmod)
        exact ⟨f', raw, hf', by rw [← hff]; exact hcall⟩
  obtain ⟨povs, hro, hpt⟩ := resolveArgsList_ok_of provs args hcov2 hnodup
  refine ⟨mergeAssoc res povs, ?_, ?_, ?_⟩
  · unfold buildOptionsResolver
    rw [hspec]
    simp only []
    rw [hargs]
    simp only []
    rw [hbp]
    simp only []
    unfold resolveArgumentOptions
    simp only []
    rw [hro]
  · obtain ⟨o, ho⟩ := h1 n0 d0 hmem (by simp [henum])
    obtain ⟨opts, hopts, hempty⟩ := hpt n0 d0 hmem
    have hfalse := hmix n0 d0 hmem (by simp [henum])
    rw [assocFind_mergeAssoc, ho]
    simp [hopts, hempty hfalse]
  · intro n d hm
    obtain ⟨opts, hopts, _⟩ := hpt n d hm
    rw [assocFind_mergeAssoc]
    cases hres : assocFind res n with
    | some o => exact ⟨_, rfl⟩
    | none => exact ⟨opts, by simp [hopts]⟩

/-- Witness for `buildOptionsResolver_C7_amended` at the well-formed module
whose argument `a` has a throwing enumerator. -/
theorem buildOptionsResolver_C7_witness :
    ∃ mres, buildOptionsResolver throwingEnumeratorModule = .ok mres ∧
      assocFind mres "a" = some [] ∧
      ∀ n d, (n, d) ∈
          [(("a" : String), ({ enumerator := some (.error "boom") } : ArgDef)),
           (("b" : String), ({ type := some "%foo" } : ArgDef))] →
        ∃ opts, assocFind mres n = some opts := by
  refine buildOptionsResolver_C7_amended throwingEnumeratorModule
    { name := some "s",
      arguments := some
        [("a", { enumerator := some (.error "boom") }),
         ("b", { type := some "%foo" })] }
    [("a", { enumerator := some (.error "boom") }),
     ("b", { type := some "%foo" })]
    "a" { enumerator := some (.error "boom") } "boom" rfl rfl (by decide)
    ?_ ?_ (by simp) rfl
  · intro n d hm hs
    rcases List.mem_cons.mp hm with hx | hm2
    · obtain ⟨hn, hd⟩ := Prod.mk.injEq .. ▸ hx
      subst hd
      rfl
    · rcases List.mem_cons.mp hm2 with hx | hm3
      · obtain ⟨hn, hd⟩ := Prod.mk.injEq .. ▸ hx
        subst hd
        simp at hs
      · simp at hm3
  · intro n d hm he t ht hst
    rcases List.mem_cons.mp hm with hx | hm2
    · obtain ⟨hn, hd⟩ := Prod.mk.injEq .. ▸ hx
      subst hd
      simp at he
    · rcases List.mem_cons.mp hm2 with hx | hm3
      · obtain ⟨hn, hd⟩ := Prod.mk.injEq .. ▸ hx
        subst hn; subst hd
        simp only [] at ht
        obtain ht' : "%foo" = t := Option.some.injEq .. ▸ ht
        subst ht'
        exact ⟨fun _ _ => .ok (.jarr [.jstr "x"]), .jarr [.jstr "x"], rfl, rfl⟩
      · simp at hm3

